import Mathlib

/- Verification development for the node-imgapi image server.

   The repository serves random or specific images over HTTP, with a
   two-tier metadata cache (a bounded in-process LRU map in the router
   variants, plus a map-with-TTL / Redis facade in cache-manager.js),
   a manifest builder (update.js) and a rate limiter (api.js).

   This file gives a shallow embedding of the cache, selection, manifest
   and rate-limiting logic.  JavaScript Maps are modelled as association
   lists in insertion order (set on an existing key updates in place,
   set on a fresh key appends, delete removes the entry); Math.random()
   is modelled as an explicit rational draw r with 0 <= r < 1 and index
   Int.toNat (Int.floor (r * length)); the Redis server is modelled as
   an explicit per-call outcome parameter; timers and connection events
   are modelled as an explicit event step function. -/

namespace ImgApi

/-! Model of a JavaScript Map as an association list in insertion order. -/

/-- Lookup (Map.prototype.get): first entry with the given key. -/
def mget {β : Type} : List (String × β) → String → Option β
  | [], _ => none
  | (k, v) :: rest, key => if k = key then some v else mget rest key

/-- Update or insert (Map.prototype.set): an existing key keeps its
position, a fresh key is appended at the end. -/
def mset {β : Type} : List (String × β) → String → β → List (String × β)
  | [], key, v => [(key, v)]
  | (k, w) :: rest, key, v =>
    if k = key then (k, v) :: rest else (k, w) :: mset rest key v

/-- Removal (Map.prototype.delete): drops the entry with the given key. -/
def mdel {β : Type} : List (String × β) → String → List (String × β)
  | [], _ => []
  | (k, w) :: rest, key => if k = key then rest else (k, w) :: mdel rest key

/-- Keys of the map, in insertion order. -/
def mkeys {β : Type} (m : List (String × β)) : List String := m.map Prod.fst

/-! Bounded local LRU cache of the router variants (api.js second variant,
cacheGetFileInfo, and src/unnamed/part_000 getFileInfo map branch).  A hit
deletes and re-inserts the key, which moves it to the freshest end; a miss
appends the fresh record and, if the size now exceeds MAX_CACHE, deletes
the entry at the oldest end (the first key of the Map). -/

/-- File metadata record produced by fs.statSync in the router variants. -/
structure FileInfo where
  filename : String
  size : Nat
  mtime : String
  fpath : String
deriving DecidableEq, Repr

/-- Embedding of cacheGetFileInfo (api.js, second variant, lines 576-602).
The fs.statSync result for the missing file is passed in as statInfo. -/
def cacheGetFileInfo (fileCache : List (String × FileInfo)) (maxCache : Nat)
    (filePath : String) (statInfo : FileInfo) :
    FileInfo × List (String × FileInfo) :=
  match mget fileCache filePath with
  | some v => (v, mset (mdel fileCache filePath) filePath v)
  | none =>
    let c := mset fileCache filePath statInfo
    let c :=
      if maxCache < c.length then
        match c.head? with
        | some kv => mdel c kv.1
        | none => c
      else c
    (statInfo, c)

/-- Fold a sequence of lookups (each a miss-or-hit of cacheGetFileInfo)
over the cache, keeping only the cache state. -/
def insertAll (fileCache : List (String × FileInfo)) (maxCache : Nat)
    (items : List (String × FileInfo)) : List (String × FileInfo) :=
  items.foldl (fun c kv => (cacheGetFileInfo c maxCache kv.1 kv.2).2) fileCache

/-! Manifest index records and random selection (api.js main variant). -/

/-- Image detail record built by convertListToDetails (api.js lines
151-184); the field directory embeds the source field written
with a leading underscore, and fullPath the full filesystem path. -/
structure ImgRec where
  name : String
  size : Nat
  uploadtime : String
  path : String
  fullPath : String
  directory : String
deriving DecidableEq, Repr

/-- Embedding of String.prototype.startsWith (structural, so that the
kernel can evaluate it). -/
def jsStartsWith (s pre : String) : Bool := pre.data.isPrefixOf s.data

/-- Index drawn by Math.floor(Math.random() * len) for a uniform draw
r with 0 <= r < 1. -/
def pickIndex (r : ℚ) (len : Nat) : Nat := (⌊r * (len : ℚ)⌋).toNat

/-- Embedding of getRandomImage (api.js lines 197-227).  The JavaScript
guard if (directory) treats both null and the empty string as absent. -/
def getRandomImage (imageDetails : List ImgRec) (directory : Option String)
    (r : ℚ) : Option ImgRec :=
  if imageDetails.length = 0 then none
  else
    match directory with
    | none => imageDetails[pickIndex r imageDetails.length]?
    | some d =>
      if d = "" then imageDetails[pickIndex r imageDetails.length]?
      else
        let filtered := imageDetails.filter fun img =>
          if d = "_root" then img.directory == "_root"
          else img.directory == d || jsStartsWith img.path (d ++ "/")
        if filtered.length = 0 then none
        else filtered[pickIndex r filtered.length]?

/-- Embedding of findSpecificImage (api.js lines 230-248); path.join of
two plain segments is directory ++ "/" ++ filename. -/
def findSpecificImage (imageDetails : List ImgRec) (directory filename : String) :
    Option ImgRec :=
  let targetPath := directory ++ "/" ++ filename
  imageDetails.find? fun img =>
    if directory = "_root" then img.directory == "_root" && img.name == filename
    else img.path == targetPath

/-- Embedding of isRandomRequest (api.js lines 251-253). -/
def isRandomRequest (parts : List String) : Bool := parts.length < 2

/-- Embedding of generateCacheKey (api.js lines 256-264). -/
def generateCacheKey (parts : List String) (reqPath : String) (json : Bool) :
    Option String :=
  if isRandomRequest parts then none
  else some ("api:" ++ reqPath ++ (if json then ":json" else ":file"))

/-! Rate limiting (api.js lines 16-112). -/

def REQUEST_LIMIT : Nat := 200
def WINDOW_SIZE : Int := 1000
def MAX_CLIENTS : Nat := 1000

/-- The per-client request-timestamp map. -/
abbrev RateMap := List (String × List Int)

/-- Embedding of cleanupRequestCounts (api.js lines 94-112): drops clients
whose requests all left the window and keeps the filtered lists otherwise. -/
def cleanupRequestCounts (rc : RateMap) (now : Int) : RateMap :=
  rc.filterMap fun p =>
    let valid := p.2.filter fun t => now - WINDOW_SIZE < t
    if valid.isEmpty then none else some (p.1, valid)

/-- Embedding of checkRateLimit (api.js lines 62-91).  The stored list is
first filtered to the sliding window; at or above the limit the request is
rejected (the filtered list is still written back), otherwise the current
time is appended and, past MAX_CLIENTS tracked clients, a cleanup pass runs. -/
def checkRateLimit (rc : RateMap) (clientIP : String) (now : Int) :
    Bool × RateMap :=
  let requests := (mget rc clientIP).getD []
  let validRequests := requests.filter fun t => now - WINDOW_SIZE < t
  if REQUEST_LIMIT ≤ validRequests.length then
    (false, mset rc clientIP validRequests)
  else
    let rc1 := mset rc clientIP (validRequests ++ [now])
    (true, if MAX_CLIENTS < rc1.length then cleanupRequestCounts rc1 now else rc1)

/-- Run a sequence of same-client requests through the rate limiter at
the given times, collecting the accept decisions. -/
def runRequests (rc : RateMap) (clientIP : String) :
    List Int → List Bool × RateMap
  | [] => ([], rc)
  | t :: rest =>
    let r := checkRateLimit rc clientIP t
    let rr := runRequests r.2 clientIP rest
    (r.1 :: rr.1, rr.2)

/-! Cache facade (cache-manager.js).  The local tier is a pair of Maps,
mapCache and mapCacheTTL; the external tier is Redis, whose per-call
outcome is passed in explicitly.  Timers and connection events are
modelled by the event step function further below. -/

/-- Mutable state of the CacheManager class (cache-manager.js lines 4-18),
together with the configuration read in its initialization (lines 21-36).
retryTimer models a pending retryTimeout, attemptInFlight a connect()
call whose promise has not yet settled. -/
structure CMState (α : Type) where
  enabled : Bool
  cfgTtl : Int
  cfgRedisTtl : Option Int
  mapCache : List (String × α)
  mapCacheTTL : List (String × Int)
  isRedisConnected : Bool
  hasClient : Bool
  isReconnecting : Bool
  retryCount : Nat
  maxRetries : Nat
  retryTimer : Bool
  attemptInFlight : Bool
deriving DecidableEq

/-- Per-call outcome of the external Redis get. -/
inductive RedisGetOutcome (α : Type)
  | hit (v : α)
  | miss
  | err
deriving DecidableEq

/-- JavaScript a || b on numbers: 0 (and absence) falls through to b. -/
def jsOrInt (o : Option Int) (d : Int) : Int :=
  match o with
  | none => d
  | some t => if t = 0 then d else t

namespace CacheManager

/-- Guard used by every operation before touching Redis
(isRedisConnected && redisClient && not isReconnecting). -/
def redisAvailable {α : Type} (s : CMState α) : Bool :=
  s.isRedisConnected && s.hasClient && !s.isReconnecting

/-- Embedding of scheduleReconnect (cache-manager.js lines 154-176): a no-op
while reconnecting or at the retry cap; otherwise increments retryCount and
arms the retry timer. -/
def scheduleReconnect {α : Type} (s : CMState α) : CMState α :=
  if s.isReconnecting || decide (s.maxRetries ≤ s.retryCount) then s
  else { s with retryCount := s.retryCount + 1, retryTimer := true }

/-- Embedding of handleRedisError (cache-manager.js lines 135-151): marks the
adapter disconnected, drops the client and asks for a reconnect. -/
def handleRedisError {α : Type} (s : CMState α) : CMState α :=
  scheduleReconnect { s with isRedisConnected := false, hasClient := false }

/-- Local (map) branch of get (cache-manager.js lines 227-240): a stored
entry is served while its expiry is absent, zero (falsy) or in the future,
and deleted from both maps once expired. -/
def localGet {α : Type} (s : CMState α) (now : Int) (key : String) :
    Option α × CMState α :=
  match mget s.mapCache key with
  | some v =>
    match mget s.mapCacheTTL key with
    | none => (some v, s)
    | some e =>
      if e = 0 then (some v, s)
      else if now < e then (some v, s)
      else (none, { s with mapCache := mdel s.mapCache key,
                           mapCacheTTL := mdel s.mapCacheTTL key })
  | none => (none, s)

/-- Embedding of CacheManager.get (cache-manager.js lines 207-241). -/
def get {α : Type} (s : CMState α) (now : Int) (key : String)
    (r : RedisGetOutcome α) : Option α × CMState α :=
  if s.enabled = false then (none, s)
  else if redisAvailable s then
    match r with
    | .hit v => (some v, s)
    | .miss => localGet s now key
    | .err => localGet (handleRedisError s) now key
  else localGet s now key

/-- Local (map) branch of set (cache-manager.js lines 268-271): stores the
value and stamps the expiry now + cacheTTL * 1000. -/
def localSet {α : Type} (s : CMState α) (now : Int) (key : String) (value : α)
    (cacheTTL : Int) : CMState α :=
  { s with mapCache := mset s.mapCache key value,
           mapCacheTTL := mset s.mapCacheTTL key (now + cacheTTL * 1000) }

/-- Embedding of CacheManager.set (cache-manager.js lines 244-272).  The
second component is the setEx command accepted by Redis, when one was:
the key and the TTL it was stored under. -/
def set {α : Type} (s : CMState α) (now : Int) (key : String) (value : α)
    (ttl : Option Int) (redisOk : Bool) : CMState α × Option (String × Int) :=
  if s.enabled = false then (s, none)
  else
    let cacheTTL := jsOrInt ttl s.cfgTtl
    let redisTTL := jsOrInt ttl (jsOrInt s.cfgRedisTtl s.cfgTtl)
    if cacheTTL ≤ 0 then (s, none)
    else if redisAvailable s then
      if redisOk then (s, some (key, redisTTL))
      else (localSet (handleRedisError s) now key value cacheTTL, none)
    else (localSet s now key value cacheTTL, none)

/-- Embedding of CacheManager.del (cache-manager.js lines 275-302).  The
Redis outcome is none on a thrown error and some n with the deleted count
otherwise. -/
def del {α : Type} (s : CMState α) (key : String) (r : Option Nat) :
    Bool × CMState α :=
  if s.enabled = false then (false, s)
  else
    let step1 : Bool × CMState α :=
      if redisAvailable s then
        match r with
        | some n => (decide (0 < n), s)
        | none => (false, handleRedisError s)
      else (false, s)
    let mapDeleted := (mget step1.2.mapCache key).isSome
    let s2 := { step1.2 with mapCache := mdel step1.2.mapCache key,
                             mapCacheTTL := mdel step1.2.mapCacheTTL key }
    (step1.1 || mapDeleted, s2)

/-- Connect event handler (cache-manager.js lines 93-105): marks the adapter
connected, resets the retry counter, clears the map cache and the pending
retry timer. -/
def onConnect {α : Type} (s : CMState α) : CMState α :=
  { s with isRedisConnected := true, retryCount := 0, isReconnecting := false,
           mapCache := [], mapCacheTTL := [], retryTimer := false,
           hasClient := true, attemptInFlight := false }

/-- Embedding of connectRedis up to the point the connect() promise is
issued (cache-manager.js lines 46-132): bails out when the cache is
disabled, a reconnect is in progress or the retry cap is reached;
otherwise creates a fresh client and starts an attempt. -/
def connectRedis {α : Type} (s : CMState α) : CMState α :=
  if s.enabled = false then s
  else if s.isReconnecting then s
  else if s.maxRetries ≤ s.retryCount then s
  else { s with isReconnecting := true, hasClient := true,
                attemptInFlight := true }

/-- The error event handler and the catch of connectRedis (cache-manager.js
lines 107-111 and 127-131): clears isReconnecting, then handleRedisError. -/
def onConnectError {α : Type} (s : CMState α) : CMState α :=
  handleRedisError { s with isReconnecting := false, attemptInFlight := false }

/-- The end event handler (cache-manager.js lines 113-118). -/
def onEnd {α : Type} (s : CMState α) : CMState α :=
  scheduleReconnect { s with isRedisConnected := false, isReconnecting := false }

/-- Embedding of resetRetryCount (cache-manager.js lines 355-363). -/
def resetRetryCount {α : Type} (s : CMState α) : CMState α :=
  { s with retryCount := 0, isReconnecting := false, retryTimer := false }

/-- State right after construction and initialization (cache-manager.js
lines 5-24): maxRetries is config maxRetries || 5, so a zero (falsy)
configuration value falls back to 5. -/
def initState (α : Type) (enabled : Bool) (cfgTtl : Int) (cfgRedisTtl : Option Int)
    (cfgMaxRetries : Nat) : CMState α :=
  { enabled := enabled, cfgTtl := cfgTtl, cfgRedisTtl := cfgRedisTtl,
    mapCache := [], mapCacheTTL := [],
    isRedisConnected := false, hasClient := false, isReconnecting := false,
    retryCount := 0,
    maxRetries := if cfgMaxRetries = 0 then 5 else cfgMaxRetries,
    retryTimer := false, attemptInFlight := false }

end CacheManager

/-- External events driving the cache facade: facade operations with their
Redis outcomes, connection lifecycle events, the retry timer firing, and
the manual retry-counter reset of the management interface. -/
inductive Ev (α : Type)
  | opGet (now : Int) (key : String) (r : RedisGetOutcome α)
  | opSet (now : Int) (key : String) (v : α) (ttl : Option Int) (redisOk : Bool)
  | opDel (key : String) (r : Option Nat)
  | connectCall
  | connectOk
  | connectErr
  | endEv
  | timerFire
  | manualReset

/-- Whether an event is the manual reset of the management interface. -/
def Ev.isReset {α : Type} : Ev α → Bool
  | .manualReset => true
  | _ => false

/-- One event step of the cache facade.  The connect event can only come
from a client whose connect() call is in flight, and the timer only fires
when armed. -/
def step {α : Type} (s : CMState α) : Ev α → CMState α
  | .opGet now key r => (CacheManager.get s now key r).2
  | .opSet now key v ttl redisOk => (CacheManager.set s now key v ttl redisOk).1
  | .opDel key r => (CacheManager.del s key r).2
  | .connectCall => CacheManager.connectRedis s
  | .connectOk => if s.attemptInFlight then CacheManager.onConnect s else s
  | .connectErr => if s.hasClient then CacheManager.onConnectError s else s
  | .endEv => CacheManager.onEnd s
  | .timerFire =>
    if s.retryTimer then CacheManager.connectRedis { s with retryTimer := false }
    else s
  | .manualReset => CacheManager.resetRetryCount s

/-- States the cache facade can actually be in: the initial state after
construction, closed under event steps. -/
inductive Reachable {α : Type} : CMState α → Prop
  | init (enabled : Bool) (cfgTtl : Int) (cfgRedisTtl : Option Int)
      (cfgMaxRetries : Nat) :
      Reachable (CacheManager.initState α enabled cfgTtl cfgRedisTtl cfgMaxRetries)
  | next {s : CMState α} (h : Reachable s) (e : Ev α) : Reachable (step s e)

/-! The main request handler (api.js handleApiRequest, lines 277-435). -/

/-- Record stored in the cache facade for a specific image request
(api.js lines 386-390): the response fields plus the full filesystem
path and the caching timestamp. -/
structure CacheRec where
  name : String
  size : Nat
  uploadtime : String
  webPath : String
  fullPath : String
  cachedAt : String
deriving DecidableEq, Repr

/-- The JSON body returned for an image (api.js lines 376-382); the
volatile processingTime field is left out of the model. -/
structure ImageInfo where
  name : String
  size : Nat
  uploadtime : String
  webPath : String
deriving DecidableEq, Repr

/-- The response fields of a cached record. -/
def CacheRec.toInfo (c : CacheRec) : ImageInfo :=
  { name := c.name, size := c.size, uploadtime := c.uploadtime,
    webPath := c.webPath }

/-- Observable cache-layer effects of handling one request, emitted at the
corresponding cacheManager call sites and at the image selection step. -/
inductive Effect
  | cacheGetEff (key : String)
  | cacheSetEff (key : String)
  | cacheDelEff (key : String)
  | selectEff
deriving DecidableEq, Repr

/-- Response of the main handler. -/
inductive Resp
  | tooMany
  | jsonResp (i : ImageInfo)
  | fileResp (fullPath : String)
  | notFound
deriving DecidableEq, Repr

/-- Embedding of handleApiRequest (api.js lines 277-435) for GET requests.
parts is req.path split on slashes with the leading api segment removed,
fsExists the cachedPathExists oracle, r the Math.random draw, and
rGet, rSet, rDel the Redis outcomes of the facade calls.  Returns the
response, the rate-limit and cache states, and the emitted effects. -/
def handleApiRequest (rate : RateMap) (cm : CMState CacheRec)
    (imageDetails : List ImgRec) (parts : List String) (reqPath : String)
    (json : Bool) (clientIP : String) (now : Int) (nowStr : String) (r : ℚ)
    (fsExists : String → Bool) (rGet : RedisGetOutcome CacheRec)
    (rSet : Bool) (rDel : Option Nat) :
    Resp × RateMap × CMState CacheRec × List Effect :=
  let rl := checkRateLimit rate clientIP now
  if rl.1 = false then (.tooMany, rl.2, cm, [])
  else
    let rate1 := rl.2
    let isRandom := isRandomRequest parts
    let cacheKey := generateCacheKey parts reqPath json
    -- Cache check, specific-file requests only (lines 310-332)
    let afterCache : Option Resp × CMState CacheRec × List Effect :=
      if isRandom = false then
        match cacheKey with
        | some k =>
          let g := CacheManager.get cm now k rGet
          match g.1 with
          | some c =>
            if json then (some (.jsonResp c.toInfo), g.2, [.cacheGetEff k])
            else if fsExists c.fullPath then
              (some (.fileResp c.fullPath), g.2, [.cacheGetEff k])
            else
              let d := CacheManager.del g.2 k rDel
              (none, d.2, [.cacheGetEff k, .cacheDelEff k])
          | none => (none, g.2, [.cacheGetEff k])
        | none => (none, cm, [])
      else (none, cm, [])
    match afterCache with
    | (some resp, cm1, effs) => (resp, rate1, cm1, effs)
    | (none, cm1, effs) =>
      -- Image selection (lines 334-357)
      let selected : Option ImgRec :=
        match parts with
        | [] => getRandomImage imageDetails none r
        | [d] => getRandomImage imageDetails (some d) r
        | d :: restParts =>
          match findSpecificImage imageDetails d
              (String.intercalate "/" restParts) with
          | some img => if fsExists img.fullPath then some img else none
          | none => none
      match selected with
      | none => (.notFound, rate1, cm1, effs ++ [.selectEff])
      | some img =>
        let info : ImageInfo :=
          { name := img.name, size := img.size, uploadtime := img.uploadtime,
            webPath := "/api/" ++ img.path }
        -- Cache write, specific-file requests only (lines 384-398)
        let withSet : CMState CacheRec × List Effect :=
          if isRandom = false then
            match cacheKey with
            | some k =>
              let cd : CacheRec :=
                { name := img.name, size := img.size,
                  uploadtime := img.uploadtime, webPath := info.webPath,
                  fullPath := img.fullPath, cachedAt := nowStr }
              ((CacheManager.set cm1 now k cd none rSet).1,
               effs ++ [.selectEff, .cacheSetEff k])
            | none => (cm1, effs ++ [.selectEff])
          else (cm1, effs ++ [.selectEff])
        if json then (.jsonResp info, rate1, withSet.1, withSet.2)
        else (.fileResp img.fullPath, rate1, withSet.1, withSet.2)

/-! The second router variant (api.js lines 604-647), whose local cache is
the LRU fileCache of cacheGetFileInfo. -/

/-- Response of the second router variant. -/
inductive RResp
  | jsonResp (i : FileInfo)
  | fileResp (fullPath : String)
  | notFound
deriving DecidableEq, Repr

/-- Embedding of the router.get handler of the second variant (api.js lines
604-647).  dirParam and fileParam are the two optional path segments;
dirImages the image scan of the requested scope (getAllImages for no
segment, getImagesInDir otherwise); statInfo the fs.statSync oracle;
targetOk whether an explicitly requested file exists and is a file. -/
def routerGetV2 (imgDir : String) (fileCache : List (String × FileInfo))
    (maxCache : Nat) (dirParam fileParam : Option String) (wantJson : Bool)
    (dirImages : List String) (statInfo : String → FileInfo)
    (targetOk : Bool) (r : ℚ) : RResp × List (String × FileInfo) :=
  match dirParam, fileParam with
  | some dir, some file =>
    let targetFile := imgDir ++ "/" ++ dir ++ "/" ++ file
    if targetOk = false then (.notFound, fileCache)
    else if wantJson then
      let g := cacheGetFileInfo fileCache maxCache targetFile (statInfo targetFile)
      (.jsonResp g.1, g.2)
    else (.fileResp targetFile, fileCache)
  | _, _ =>
    if dirImages.length = 0 then (.notFound, fileCache)
    else
      match dirImages[pickIndex r dirImages.length]? with
      | none => (.notFound, fileCache)
      | some randomImage =>
        if wantJson then
          let g := cacheGetFileInfo fileCache maxCache randomImage
            (statInfo randomImage)
          (.jsonResp g.1, g.2)
        else (.fileResp randomImage, fileCache)

/-! Manifest builder (update.js). -/

/-- One directory entry of the image root, as seen by fs.readdir with
file types; for a subdirectory, its own listing with the formatted
modification time of each file. -/
inductive FsEntry
  | file (name : String) (mtime : String)
  | dir (name : String) (files : List (String × String))
  | other (name : String)
deriving DecidableEq, Repr

/-- Embedding of String.prototype.endsWith (structural, so that the
kernel can evaluate it). -/
def jsEndsWith (s suffix : String) : Bool := suffix.data.isSuffixOf s.data

/-- Lower-casing of a string, character by character (structural). -/
def jsToLower (s : String) : String := String.mk (s.data.map Char.toLower)

/-- Embedding of isImageFile (update.js lines 12-14): the extension
allow-list jpg, jpeg, png, gif, webp, case-insensitive. -/
def isImageFile (filename : String) : Bool :=
  let l := jsToLower filename
  jsEndsWith l ".jpg" || jsEndsWith l ".jpeg" || jsEndsWith l ".png" ||
    jsEndsWith l ".gif" || jsEndsWith l ".webp"

/-- A manifest group: filename to formatted timestamp, in insertion order. -/
abbrev ManifestGroup := List (String × String)

/-- The manifest document: directory key to group, in insertion order. -/
abbrev Manifest := List (String × ManifestGroup)

/-- Top-level image files of the root, in readdir order (update.js
lines 41-47). -/
def rootFiles (entries : List FsEntry) : ManifestGroup :=
  entries.filterMap fun e =>
    match e with
    | .file n t => if isImageFile n then some (n, t) else none
    | _ => none

/-- The subdirectories of the root with their listings, in readdir order. -/
def subdirList (entries : List FsEntry) : List (String × ManifestGroup) :=
  entries.filterMap fun e =>
    match e with
    | .dir n fs => some (n, fs)
    | _ => none

/-- Names of the subdirectories of the root. -/
def subdirNames (entries : List FsEntry) : List String := mkeys (subdirList entries)

/-- Embedding of generateListJson (update.js lines 31-70).  The _root key
is created first and filled synchronously in readdir order; each
subdirectory key is created inside the asynchronous fs.readdir callback
for that subdirectory, so the subdirectory keys appear in callback
completion order, an input of the model (a permutation of the
subdirectory names). -/
def generateListJson (entries : List FsEntry) (completionOrder : List String) :
    Manifest :=
  ("_root", rootFiles entries) ::
  completionOrder.filterMap fun n =>
    (mget (subdirList entries) n).map fun fs =>
      (n, fs.filter fun p => isImageFile p.1)

/-- A JSON string literal (no escaping needed for the names and
timestamps at hand). -/
def jsonQuote (s : String) : String := "\x22" ++ s ++ "\x22"

/-- Serialization of one manifest group as JSON.stringify(g, null, 2)
renders it at nesting depth one. -/
def serializeGroup (g : ManifestGroup) : String :=
  match g with
  | [] => "\x7b\x7d"
  | _ =>
    "\x7b\n" ++
    String.intercalate ",\n"
      (g.map fun p => "    " ++ jsonQuote p.1 ++ ": " ++ jsonQuote p.2) ++
    "\n  \x7d"

/-- Serialization of the manifest document as JSON.stringify(data, null, 2):
the persisted bytes of list.json. -/
def serializeManifest (m : Manifest) : String :=
  match m with
  | [] => "\x7b\x7d"
  | _ =>
    "\x7b\n" ++
    String.intercalate ",\n"
      (m.map fun p => "  " ++ jsonQuote p.1 ++ ": " ++ serializeGroup p.2) ++
    "\n\x7d"

/-! The manifest refresh route (update.js lines 88-112). -/

/-- Embedding of String.prototype.trim: drops leading and trailing
whitespace (structural, so that the kernel can evaluate it). -/
def jsTrim (s : String) : String :=
  String.mk
    (((s.data.dropWhile Char.isWhitespace).reverse.dropWhile
        Char.isWhitespace).reverse)

/-- Authorization check of the update route (update.js lines 89-94):
the request fails when the token is absent or empty (falsy), or when its
trimmed value differs from the trimmed server secret (empty when unset). -/
def updateAuthorized (token : Option String) (secret : Option String) : Bool :=
  match token with
  | none => false
  | some t => if t = "" then false else jsTrim t == jsTrim (secret.getD "")

/-- Count returned on success (update.js line 104): total number of
entries over all groups. -/
def countImages (m : Manifest) : Nat := (m.map fun p => p.2.length).sum

/-- Response of the update route. -/
inductive UpdateResp
  | forbidden
  | buildError
  | writeError
  | success (count : Nat)
deriving DecidableEq, Repr

/-- Embedding of the update route handler (update.js lines 88-112).
buildResult is the outcome of generateListJson over the filesystem,
writeOk whether the fs.writeFile of list.json succeeded, and persisted
the current bytes of list.json; the second component is the persisted
document after the request. -/
def handleUpdate (token secret : Option String) (buildResult : Except Unit Manifest)
    (writeOk : Bool) (persisted : Option String) : UpdateResp × Option String :=
  if updateAuthorized token secret = false then (.forbidden, persisted)
  else
    match buildResult with
    | .error _ => (.buildError, persisted)
    | .ok data =>
      if writeOk = false then (.writeError, persisted)
      else (.success (countImages data), some (serializeManifest data))

/-! Sample records used for concrete instantiations of the theorems. -/

def fiA : FileInfo := ⟨"a.jpg", 1, "2025-01-01 00:00:00", "/img/a.jpg"⟩
def fiB : FileInfo := ⟨"b.jpg", 2, "2025-01-02 00:00:00", "/img/b.jpg"⟩
def fiC : FileInfo := ⟨"c.jpg", 3, "2025-01-03 00:00:00", "/img/c.jpg"⟩

/-- A record whose path lies under directory a but whose directory field
differs: reachable when the manifest carries nested keys or filenames
with slashes. -/
def recNested : ImgRec :=
  { name := "x.png", size := 1, uploadtime := "t1", path := "a/x.png",
    fullPath := "/img/a/x.png", directory := "other" }

/-- A well-formed record of the pets directory. -/
def recPets : ImgRec :=
  { name := "b.png", size := 2, uploadtime := "t2", path := "pets/b.png",
    fullPath := "/img/pets/b.png", directory := "pets" }

/-- A sample manifest document. -/
def mSample : Manifest :=
  [("_root", [("a.webp", "2025-01-01 00:00:00")]),
   ("pets", [("b.png", "2025-01-02 00:00:00")])]

/-- A sample image-root listing with two subdirectories. -/
def fsSample : List FsEntry :=
  [FsEntry.file "a.webp" "2025-01-01 00:00:00",
   FsEntry.dir "pets" [("b.png", "2025-01-02 00:00:00")],
   FsEntry.dir "cats" [("c.gif", "2025-01-03 00:00:00")]]

/-- A capped, unhealthy facade state used for concrete instantiations. -/
def cappedState : CMState Nat :=
  { enabled := true, cfgTtl := 3600, cfgRedisTtl := none, mapCache := [],
    mapCacheTTL := [], isRedisConnected := false, hasClient := false,
    isReconnecting := false, retryCount := 5, maxRetries := 5,
    retryTimer := false, attemptInFlight := false }

/-- A facade state with a connect attempt in flight. -/
def attemptState : CMState Nat :=
  { enabled := true, cfgTtl := 3600, cfgRedisTtl := none, mapCache := [],
    mapCacheTTL := [], isRedisConnected := false, hasClient := true,
    isReconnecting := true, retryCount := 3, maxRetries := 5,
    retryTimer := false, attemptInFlight := true }

/-- A sample reset-free event sequence. -/
def evC5 : List (Ev Nat) :=
  [Ev.timerFire, Ev.connectCall, Ev.connectErr, Ev.endEv,
   Ev.opGet 0 "k" RedisGetOutcome.err]

/-! Helper lemmas about the Map model. -/

theorem mkeys_cons {β : Type} (p : String × β) (m : List (String × β)) :
    mkeys (p :: m) = p.1 :: mkeys m := rfl

theorem mkeys_append {β : Type} (m n : List (String × β)) :
    mkeys (m ++ n) = mkeys m ++ mkeys n := List.map_append _ _ _

theorem mem_mkeys_of_mem {β : Type} {m : List (String × β)} {p : String × β}
    (h : p ∈ m) : p.1 ∈ mkeys m := List.mem_map_of_mem Prod.fst h

theorem mget_eq_none_iff {β : Type} (m : List (String × β)) (k : String) :
    mget m k = none ↔ k ∉ mkeys m := by
  induction m with
  | nil => simp [mget, mkeys]
  | cons hd tl ih =>
    rw [mkeys_cons]
    by_cases h : hd.1 = k
    · simp [mget, h]
    · simp only [mget, h, if_false, ih, List.mem_cons]
      constructor
      · intro hn hc
        rcases hc with hc | hc
        · exact h hc.symm
        · exact hn hc
      · intro hn hc
        exact hn (Or.inr hc)

theorem mget_of_notMem {β : Type} {m : List (String × β)} {k : String}
    (h : k ∉ mkeys m) : mget m k = none := (mget_eq_none_iff m k).2 h

theorem mget_of_mem_nodup {β : Type} {m : List (String × β)} {k : String}
    {v : β} (hnd : (mkeys m).Nodup) (h : (k, v) ∈ m) : mget m k = some v := by
  induction m with
  | nil => simp at h
  | cons hd tl ih =>
    rw [mkeys_cons] at hnd
    rcases List.mem_cons.1 h with h1 | h1
    · simp [mget, ← h1]
    · have hk : k ∈ mkeys tl := mem_mkeys_of_mem h1
      have hne : hd.1 ≠ k := by
        intro he
        exact (List.nodup_cons.1 hnd).1 (he ▸ hk)
      simp [mget, hne]
      exact ih (List.nodup_cons.1 hnd).2 h1

theorem mset_fresh {β : Type} {m : List (String × β)} {k : String} (v : β)
    (h : k ∉ mkeys m) : mset m k v = m ++ [(k, v)] := by
  induction m with
  | nil => rfl
  | cons hd tl ih =>
    rw [mkeys_cons] at h
    have hne : hd.1 ≠ k := fun he => h (he ▸ List.mem_cons_self _ _)
    simp [mset, hne]
    exact ih fun ht => h (List.mem_cons_of_mem _ ht)

theorem mdel_of_notMem {β : Type} {m : List (String × β)} {k : String}
    (h : k ∉ mkeys m) : mdel m k = m := by
  induction m with
  | nil => rfl
  | cons hd tl ih =>
    rw [mkeys_cons] at h
    have hne : hd.1 ≠ k := fun he => h (he ▸ List.mem_cons_self _ _)
    simp [mdel, hne]
    exact ih fun ht => h (List.mem_cons_of_mem _ ht)

theorem notMem_mkeys_mdel {β : Type} {m : List (String × β)} {k : String}
    (hnd : (mkeys m).Nodup) : k ∉ mkeys (mdel m k) := by
  induction m with
  | nil => simp [mdel, mkeys]
  | cons hd tl ih =>
    rw [mkeys_cons] at hnd
    by_cases h : hd.1 = k
    · simpa [mdel, h] using h ▸ (List.nodup_cons.1 hnd).1
    · simp [mdel, h, mkeys_cons]
      refine ⟨fun he => h he.symm, ih (List.nodup_cons.1 hnd).2⟩

theorem mdel_append_left {β : Type} {m : List (String × β)} {k : String}
    (n : List (String × β)) (h : k ∈ mkeys m) :
    mdel (m ++ n) k = mdel m k ++ n := by
  induction m with
  | nil => simp [mkeys] at h
  | cons hd tl ih =>
    by_cases he : hd.1 = k
    · simp [mdel, he]
    · rw [mkeys_cons] at h
      have ht : k ∈ mkeys tl := by
        rcases List.mem_cons.1 h with h1 | h1
        · exact absurd h1.symm he
        · exact h1
      simp [mdel, he, ih ht]

theorem mget_append_of_notMem {β : Type} {m : List (String × β)} {k : String}
    (n : List (String × β)) (h : k ∉ mkeys m) :
    mget (m ++ n) k = mget n k := by
  induction m with
  | nil => rfl
  | cons hd tl ih =>
    rw [mkeys_cons] at h
    have hne : hd.1 ≠ k := fun he => h (he ▸ List.mem_cons_self _ _)
    simp [mget, hne]
    exact ih fun ht => h (List.mem_cons_of_mem _ ht)

theorem mkeys_tail {β : Type} (m : List (String × β)) :
    mkeys m.tail = (mkeys m).tail := by
  cases m <;> rfl

theorem mkeys_mdel_subset {β : Type} (m : List (String × β)) (k : String) :
    mkeys (mdel m k) ⊆ mkeys m := by
  induction m with
  | nil => simp [mdel]
  | cons hd tl ih =>
    by_cases h : hd.1 = k
    · simp only [mdel, h, if_true, mkeys_cons]
      exact fun x hx => List.mem_cons_of_mem _ hx
    · simp only [mdel, h, if_false, mkeys_cons]
      exact List.cons_subset_cons _ ih

theorem mdel_length {β : Type} {m : List (String × β)} {k : String}
    (h : k ∈ mkeys m) : (mdel m k).length + 1 = m.length := by
  induction m with
  | nil => simp [mkeys] at h
  | cons hd tl ih =>
    by_cases he : hd.1 = k
    · simp [mdel, he]
    · rw [mkeys_cons] at h
      have ht : k ∈ mkeys tl := by
        rcases List.mem_cons.1 h with h1 | h1
        · exact absurd h1.symm he
        · exact h1
      simp [mdel, he, ← ih ht]

/-! Lemmas about the bounded LRU cache (claim C2). -/

theorem cacheGetFileInfo_hit {cache : List (String × FileInfo)}
    {maxCache : Nat} {k : String} {v : FileInfo} (stat : FileInfo)
    (h : mget cache k = some v) :
    cacheGetFileInfo cache maxCache k stat = (v, mset (mdel cache k) k v) := by
  simp [cacheGetFileInfo, h]

theorem cacheGetFileInfo_miss_noEvict {cache : List (String × FileInfo)}
    {maxCache : Nat} {k : String} (stat : FileInfo) (h : k ∉ mkeys cache)
    (hlen : cache.length + 1 ≤ maxCache) :
    cacheGetFileInfo cache maxCache k stat = (stat, cache ++ [(k, stat)]) := by
  have hm : mget cache k = none := mget_of_notMem h
  have hs : mset cache k stat = cache ++ [(k, stat)] := mset_fresh stat h
  simp [cacheGetFileInfo, hm, hs]
  intro hc
  exact absurd hc (by omega)

theorem cacheGetFileInfo_miss_evict {cache : List (String × FileInfo)}
    {maxCache : Nat} {k : String} (stat : FileInfo) (h : k ∉ mkeys cache)
    (hlen : maxCache ≤ cache.length) (hne : cache ≠ []) :
    cacheGetFileInfo cache maxCache k stat = (stat, cache.tail ++ [(k, stat)]) := by
  have hm : mget cache k = none := mget_of_notMem h
  have hs : mset cache k stat = cache ++ [(k, stat)] := mset_fresh stat h
  obtain ⟨hd, tl, rfl⟩ := List.exists_cons_of_ne_nil hne
  have hlen' : maxCache ≤ tl.length + 1 := by simpa using hlen
  simp [cacheGetFileInfo, hm, hs, mdel]
  omega

theorem insertAll_nil (fileCache : List (String × FileInfo)) (maxCache : Nat) :
    insertAll fileCache maxCache [] = fileCache := rfl

theorem insertAll_cons (fileCache : List (String × FileInfo)) (maxCache : Nat)
    (kv : String × FileInfo) (rest : List (String × FileInfo)) :
    insertAll fileCache maxCache (kv :: rest)
      = insertAll ((cacheGetFileInfo fileCache maxCache kv.1 kv.2).2) maxCache rest :=
  rfl

theorem insertAll_fills (maxCache : Nat) :
    ∀ (items cache : List (String × FileInfo)),
      (mkeys (cache ++ items)).Nodup →
      cache.length + items.length ≤ maxCache →
      insertAll cache maxCache items = cache ++ items := by
  intro items
  induction items with
  | nil => intro cache _ _; simp [insertAll_nil]
  | cons kv rest ih =>
    intro cache hnd hlen
    have hkeys : mkeys (cache ++ kv :: rest) = mkeys cache ++ kv.1 :: mkeys rest := by
      rw [mkeys_append, mkeys_cons]
    rw [hkeys] at hnd
    have hdisj := (List.nodup_append.1 hnd).2.2
    have hfresh : kv.1 ∉ mkeys cache := fun hmem =>
      hdisj hmem (List.mem_cons_self _ _)
    have hbound : cache.length + 1 ≤ maxCache := by
      simp at hlen
      omega
    have hstep := @cacheGetFileInfo_miss_noEvict cache maxCache kv.1 kv.2
      hfresh hbound
    have heq : (cache ++ [kv]) ++ rest = cache ++ kv :: rest := by
      rw [List.append_assoc]
      rfl
    have hnd2 : (mkeys ((cache ++ [kv]) ++ rest)).Nodup := by
      rw [heq, hkeys]
      exact hnd
    have hlen2 : (cache ++ [kv]).length + rest.length ≤ maxCache := by
      simp at hlen ⊢
      omega
    rw [insertAll_cons, hstep]
    have hres := ih (cache ++ [kv]) hnd2 hlen2
    rw [show ((kv.2 : FileInfo), cache ++ [(kv.1, kv.2)]).2 = cache ++ [kv] from rfl]
    rw [hres, heq]

theorem insertAll_overflow (maxCache : Nat) (items : List (String × FileInfo))
    (hnd : (mkeys items).Nodup) (hlen : items.length = maxCache + 1)
    (hmax : 1 ≤ maxCache) :
    insertAll [] maxCache items = items.tail := by
  have hne : items ≠ [] := by
    intro he
    rw [he] at hlen
    simp at hlen
  rcases List.eq_nil_or_concat items with he | ⟨front, lastI, rfl⟩
  · exact absurd he hne
  simp only [List.concat_eq_append] at hnd hlen hne ⊢
  have hfl : front.length = maxCache := by
    simp at hlen
    omega
  have hkeys : mkeys (front ++ [lastI]) = mkeys front ++ [lastI.1] := by
    rw [mkeys_append]
    rfl
  rw [hkeys] at hnd
  have hdisj := (List.nodup_append.1 hnd).2.2
  have hndf : (mkeys front).Nodup := (List.nodup_append.1 hnd).1
  have hfresh : lastI.1 ∉ mkeys front := fun hmem =>
    hdisj hmem (List.mem_cons_self _ _)
  have hfrne : front ≠ [] := by
    intro he
    rw [he] at hfl
    simp at hfl
    omega
  have hfill : insertAll [] maxCache front = front := by
    have := insertAll_fills maxCache front []
    simpa [hfl] using this (by simpa using hndf)
  have hsplit : insertAll [] maxCache (front ++ [lastI])
      = insertAll (insertAll [] maxCache front) maxCache [lastI] := by
    simp [insertAll, List.foldl_append]
  rw [hsplit, hfill]
  obtain ⟨f0, frest, rfl⟩ := List.exists_cons_of_ne_nil hfrne
  have hstep := @cacheGetFileInfo_miss_evict (f0 :: frest) maxCache lastI.1
    lastI.2 hfresh (by omega) hfrne
  have : insertAll (f0 :: frest) maxCache [lastI]
      = (cacheGetFileInfo (f0 :: frest) maxCache lastI.1 lastI.2).2 := rfl
  rw [this, hstep]
  rfl

theorem lru_get_protects (maxCache : Nat) (items : List (String × FileInfo))
    (k₀ : String) (v₀ stat wstat : FileInfo) (knew : String)
    (hmax : 2 ≤ maxCache) (hlen : items.length = maxCache)
    (hnd : (mkeys items).Nodup) (hmem : (k₀, v₀) ∈ items)
    (hfresh : knew ∉ mkeys items) :
    mget ((cacheGetFileInfo
        ((cacheGetFileInfo (insertAll [] maxCache items) maxCache k₀ stat).2)
        maxCache knew wstat).2) k₀ = some v₀ := by
  have hfill : insertAll [] maxCache items = items := by
    have := insertAll_fills maxCache items []
    simpa [hlen] using this (by simpa using hnd)
  have hget : mget items k₀ = some v₀ := mget_of_mem_nodup hnd hmem
  have hk₀mem : k₀ ∈ mkeys items := mem_mkeys_of_mem hmem
  have hnotD : k₀ ∉ mkeys (mdel items k₀) := notMem_mkeys_mdel hnd
  have hsetD : mset (mdel items k₀) k₀ v₀ = mdel items k₀ ++ [(k₀, v₀)] :=
    mset_fresh v₀ hnotD
  have hhit := @cacheGetFileInfo_hit items maxCache k₀ v₀ stat hget
  have hDlen : (mdel items k₀).length + 1 = maxCache := by
    rw [mdel_length hk₀mem, hlen]
  have hDne : mdel items k₀ ≠ [] := by
    intro he
    rw [he] at hDlen
    simp at hDlen
    omega
  have hfresh2 : knew ∉ mkeys (mdel items k₀ ++ [(k₀, v₀)]) := by
    rw [mkeys_append]
    intro hmem2
    rcases List.mem_append.1 hmem2 with h1 | h1
    · exact hfresh (mkeys_mdel_subset items k₀ h1)
    · have : knew = k₀ := by simpa [mkeys] using h1
      exact hfresh (this ▸ hk₀mem)
  have hlen2 : maxCache ≤ (mdel items k₀ ++ [(k₀, v₀)]).length := by
    rw [List.length_append]
    simp
    omega
  have hne2 : mdel items k₀ ++ [(k₀, v₀)] ≠ [] := by simp
  have hevict := @cacheGetFileInfo_miss_evict
    (mdel items k₀ ++ [(k₀, v₀)]) maxCache knew wstat hfresh2 hlen2 hne2
  rw [hfill, hhit]
  simp only [hsetD]
  rw [hevict]
  obtain ⟨d0, drest, hD⟩ := List.exists_cons_of_ne_nil hDne
  rw [hD]
  have htail : ((d0 :: drest) ++ [(k₀, v₀)]).tail = drest ++ [(k₀, v₀)] := rfl
  simp only [htail]
  have hnotTail : k₀ ∉ mkeys drest := by
    intro hmem3
    apply hnotD
    rw [hD, mkeys_cons]
    exact List.mem_cons_of_mem _ hmem3
  rw [List.append_assoc]
  rw [mget_append_of_notMem _ hnotTail]
  simp [mget]

/-- C2 (amended): for the bounded local LRU cache with capacity N
(cacheGetFileInfo): a hit re-inserts the key at the freshest end of the
Map order; a miss on a full cache evicts exactly the entry at the oldest
end; inserting N+1 distinct keys into an empty capacity-N cache evicts
exactly the first (least-recently-used) key; and, provided N is at
least 2, a get on a key before the (N+1)th insert protects that key from
eviction.  The protection clause fails at N = 1 (the counterexample),
which is the one respect in which the claim is amended. -/
theorem C2_lru_amended :
    (∀ (cache : List (String × FileInfo)) (maxCache : Nat) (k : String)
        (stat v : FileInfo), (mkeys cache).Nodup → mget cache k = some v →
        (cacheGetFileInfo cache maxCache k stat).2 = mdel cache k ++ [(k, v)]) ∧
    (∀ (cache : List (String × FileInfo)) (maxCache : Nat) (k : String)
        (stat : FileInfo), k ∉ mkeys cache → maxCache ≤ cache.length →
        cache ≠ [] →
        (cacheGetFileInfo cache maxCache k stat).2 = cache.tail ++ [(k, stat)]) ∧
    (∀ (items : List (String × FileInfo)) (maxCache : Nat),
        (mkeys items).Nodup → items.length = maxCache + 1 → 1 ≤ maxCache →
        insertAll [] maxCache items = items.tail) ∧
    (∀ (maxCache : Nat) (items : List (String × FileInfo)) (k₀ : String)
        (v₀ stat wstat : FileInfo) (knew : String),
        2 ≤ maxCache → items.length = maxCache → (mkeys items).Nodup →
        (k₀, v₀) ∈ items → knew ∉ mkeys items →
        mget ((cacheGetFileInfo
            ((cacheGetFileInfo (insertAll [] maxCache items) maxCache k₀ stat).2)
            maxCache knew wstat).2) k₀ = some v₀) := by
  refine ⟨?_, ?_, ?_, ?_⟩
  · intro cache maxCache k stat v hnd hget
    rw [cacheGetFileInfo_hit stat hget]
    exact mset_fresh v (notMem_mkeys_mdel hnd)
  · intro cache maxCache k stat h hlen hne
    rw [cacheGetFileInfo_miss_evict stat h hlen hne]
  · intro items maxCache hnd hlen hmax
    exact insertAll_overflow maxCache items hnd hlen hmax
  · intro maxCache items k₀ v₀ stat wstat knew hmax hlen hnd hmem hfresh
    exact lru_get_protects maxCache items k₀ v₀ stat wstat knew hmax hlen hnd
      hmem hfresh

/-- C2 witness: the four clauses of the amended LRU theorem at concrete
inputs (capacities 1 and 2, keys a, b, c). -/
theorem C2_lru_amended_witness :
    (cacheGetFileInfo [("a", fiA), ("b", fiB)] 2 "a" fiC).2
      = mdel [("a", fiA), ("b", fiB)] "a" ++ [("a", fiA)] ∧
    (cacheGetFileInfo [("a", fiA)] 1 "b" fiB).2
      = [("a", fiA)].tail ++ [("b", fiB)] ∧
    insertAll [] 1 [("a", fiA), ("b", fiB)] = [("a", fiA), ("b", fiB)].tail ∧
    mget ((cacheGetFileInfo
        ((cacheGetFileInfo (insertAll [] 2 [("a", fiA), ("b", fiB)]) 2 "a" fiC).2)
        2 "c" fiC).2) "a" = some fiA :=
  ⟨C2_lru_amended.1 [("a", fiA), ("b", fiB)] 2 "a" fiC fiA (by decide) (by decide),
   C2_lru_amended.2.1 [("a", fiA)] 1 "b" fiB (by decide) (by decide) (by decide),
   C2_lru_amended.2.2.1 [("a", fiA), ("b", fiB)] 1 (by decide) (by decide)
     (by decide),
   C2_lru_amended.2.2.2 2 [("a", fiA), ("b", fiB)] "a" fiA fiC fiC "c"
     (by decide) (by decide) (by decide) (by decide) (by decide)⟩

/-- C2 counterexample: with capacity N = 1, insert key a, perform a get on
a (a hit, so a is most recently used), then insert a distinct key b: a is
evicted anyway, so the clause that a get on a key before the (N+1)th
insert protects that key from eviction fails at N = 1 as stated. -/
theorem C2_counterexample :
    mget ((cacheGetFileInfo
        ((cacheGetFileInfo ((cacheGetFileInfo [] 1 "a" fiA).2) 1 "a" fiA).2)
        1 "b" fiB).2) "a" = none := by
  decide

/-! Claim C1: caching of random requests. -/

/-- C1 (amended): in the main handler (handleApiRequest), a request whose
path has fewer than two segments generates no cache key, leaves the cache
facade state untouched, and emits no cache-tier operation (at most the
selection step).  In the legacy second router variant, by contrast, a
random draw served as JSON does populate the local fileCache (the
counterexample). -/
theorem C1_random_not_cached_main (rate : RateMap) (cm : CMState CacheRec)
    (imageDetails : List ImgRec) (parts : List String) (reqPath : String)
    (json : Bool) (clientIP : String) (now : Int) (nowStr : String) (r : ℚ)
    (fsExists : String → Bool) (rGet : RedisGetOutcome CacheRec) (rSet : Bool)
    (rDel : Option Nat) (h : parts.length < 2) :
    generateCacheKey parts reqPath json = none ∧
    (handleApiRequest rate cm imageDetails parts reqPath json clientIP now
        nowStr r fsExists rGet rSet rDel).2.2.1 = cm ∧
    ∀ e ∈ (handleApiRequest rate cm imageDetails parts reqPath json clientIP
        now nowStr r fsExists rGet rSet rDel).2.2.2, e = Effect.selectEff := by
  have hrand : isRandomRequest parts = true := by
    simp [isRandomRequest]
    omega
  have hkey : generateCacheKey parts reqPath json = none := by
    simp [generateCacheKey, hrand]
  refine ⟨hkey, ?_⟩
  unfold handleApiRequest
  simp only [hrand, hkey]
  split
  · simp
  · rcases parts with _ | ⟨d, rest⟩
    · simp only [Bool.true_eq_false, if_false]
      split
      · simp_all
      · split <;> simp_all
    · rcases rest with _ | ⟨e2, rest2⟩
      · simp only [Bool.true_eq_false, if_false]
        split
        · simp_all
        · split <;> simp_all
      · simp [isRandomRequest] at hrand
        omega

/-- C1 witness: a one-segment (random within a directory) JSON request
against a freshly initialized facade generates no cache key, leaves the
facade untouched and emits only the selection step. -/
theorem C1_random_not_cached_main_witness :
    generateCacheKey ["pets"] "/api/pets" true = none ∧
    (handleApiRequest [] (CacheManager.initState CacheRec true 3600 (some 7200) 5)
        [] ["pets"] "/api/pets" true "1.2.3.4" 0 "ts" 0 (fun _ => true) .miss
        true none).2.2.1
      = CacheManager.initState CacheRec true 3600 (some 7200) 5 ∧
    ∀ e ∈ (handleApiRequest [] (CacheManager.initState CacheRec true 3600 (some 7200) 5)
        [] ["pets"] "/api/pets" true "1.2.3.4" 0 "ts" 0 (fun _ => true) .miss
        true none).2.2.2, e = Effect.selectEff :=
  C1_random_not_cached_main [] _ [] ["pets"] "/api/pets" true "1.2.3.4" 0 "ts" 0
    (fun _ => true) .miss true none (by decide)

/-- C1 counterexample: in the legacy second router variant (api.js lines
633-642), a one-segment request (a random draw within a directory, so a
request with fewer than two path segments) served as JSON populates the
local fileCache with the drawn file: the claim that such requests write
no entry into any cache tier is false for that handler. -/
theorem C1_counterexample :
    (routerGetV2 "/img" [] 100 (some "pets") none true ["/img/pets/a.jpg"]
        (fun _ => fiA) true 0).2 = [("/img/pets/a.jpg", fiA)] ∧
    isRandomRequest ["pets"] = true := by
  have hp : pickIndex 0 1 = 0 := by simp [pickIndex]
  refine ⟨?_, by decide⟩
  simp [routerGetV2, hp, cacheGetFileInfo, mget, mset]

/-! Claims C3, C4, C5, C6: the cache facade. -/

theorem mget_mset_self {β : Type} (m : List (String × β)) (k : String) (v : β) :
    mget (mset m k v) k = some v := by
  induction m with
  | nil => simp [mset, mget]
  | cons hd tl ih =>
    by_cases h : hd.1 = k
    · simp [mset, mget, h]
    · simp [mset, mget, h, ih]

/-- C6 (confirmed): a facade set whose effective TTL (the JavaScript
ttl || config.cache.ttl) resolves to zero or negative stores nothing in
either tier: the facade state is unchanged (so the local map holds
exactly the entries it held before) and no Redis command is issued. -/
theorem C6_set_nonpositive_ttl_noop {α : Type} (s : CMState α) (now : Int)
    (key : String) (value : α) (ttl : Option Int) (redisOk : Bool)
    (h : jsOrInt ttl s.cfgTtl ≤ 0) :
    CacheManager.set s now key value ttl redisOk = (s, none) := by
  unfold CacheManager.set
  by_cases he : s.enabled = false
  · simp [he]
  · simp [he, h]

/-- C6 witness: a set with explicit TTL -1 against a fresh enabled facade
is a no-op and issues no Redis command. -/
theorem C6_set_nonpositive_ttl_noop_witness :
    CacheManager.set (CacheManager.initState Nat true 3600 none 5) 0 "k" 7
        (some (-1)) true
      = (CacheManager.initState Nat true 3600 none 5, none) :=
  C6_set_nonpositive_ttl_noop _ 0 "k" 7 (some (-1)) true (by decide)

/-- C3 (amended): the local map tier of the cache facade does attach a
time-to-live to every entry: a set at time now with positive effective
ttl stamps the expiry now + ttl * 1000, and a later get (with the external
adapter disconnected) returns the entry exactly while now2 < now +
ttl * 1000 — after that moment the entry is gone without any capacity
pressure or explicit invalidation.  (The TTL-free capacity-bound-only
description fits the router variants' LRU fileCache, not the facade's
local map cache cited by the claim.) -/
theorem C3_map_ttl_amended {α : Type} (s : CMState α) (now now2 : Int)
    (key : String) (value : α) (ttl : Int) (r : RedisGetOutcome α)
    (henabled : s.enabled = true) (hconn : s.isRedisConnected = false)
    (httl : 0 < ttl) (hnow : 0 ≤ now) :
    (CacheManager.get ((CacheManager.set s now key value (some ttl) true).1)
        now2 key r).1
      = if now2 < now + ttl * 1000 then some value else none := by
  have htne : ttl ≠ 0 := by omega
  have hcTTL : jsOrInt (some ttl) s.cfgTtl = ttl := by simp [jsOrInt, htne]
  have hpos : ¬ jsOrInt (some ttl) s.cfgTtl ≤ 0 := by
    rw [hcTTL]
    omega
  have havail : CacheManager.redisAvailable s = false := by
    simp [CacheManager.redisAvailable, hconn]
  have hset : (CacheManager.set s now key value (some ttl) true).1
      = CacheManager.localSet s now key value ttl := by
    unfold CacheManager.set
    simp [henabled, havail, hcTTL]
    rw [if_neg (by omega : ¬ ttl ≤ 0)]
  rw [hset]
  have hez : ¬ (now + ttl * 1000 = 0) := by omega
  unfold CacheManager.get CacheManager.localGet
  simp [CacheManager.localSet, CacheManager.redisAvailable, henabled, hconn,
    mget_mset_self, hez]
  split <;> simp

/-- C3 witness: with config TTL 3600 and explicit TTL 1 second, an entry
set at time 0 is served at time 999 and gone at time 1000. -/
theorem C3_map_ttl_amended_witness :
    (CacheManager.get ((CacheManager.set (CacheManager.initState String true 3600 none 5)
        0 "k" "v" (some 1) true).1) 999 "k" .miss).1 = some "v" ∧
    (CacheManager.get ((CacheManager.set (CacheManager.initState String true 3600 none 5)
        0 "k" "v" (some 1) true).1) 1000 "k" .miss).1 = none := by
  constructor
  · have h := C3_map_ttl_amended (CacheManager.initState String true 3600 none 5)
      0 999 "k" "v" 1 .miss rfl rfl (by decide) (by decide)
    simpa using h
  · have h := C3_map_ttl_amended (CacheManager.initState String true 3600 none 5)
      0 1000 "k" "v" 1 .miss rfl rfl (by decide) (by decide)
    simpa using h

/-- C3 counterexample: an entry set with the default (positive) TTL is
still physically present in the local map cache, yet a get after the TTL
window returns nothing — the entry expired by pure passage of time, with
no capacity pressure (the map tier is unbounded) and no explicit
invalidation in between, contradicting the claim that local-cache
entries never expire by time. -/
theorem C3_counterexample :
    ((CacheManager.set (CacheManager.initState String true 1 none 5) 0 "k" "v"
        none true).1).mapCache = [("k", "v")] ∧
    (CacheManager.get ((CacheManager.set (CacheManager.initState String true 1 none 5)
        0 "k" "v" none true).1) 500 "k" .miss).1 = some "v" ∧
    (CacheManager.get ((CacheManager.set (CacheManager.initState String true 1 none 5)
        0 "k" "v" none true).1) 1000 "k" .miss).1 = none := by
  decide

/-- Invariant of every reachable facade state: whenever the adapter is
connected the retry counter is zero (a successful connect resets it, and
nothing increments it while connected), and the configured retry cap is
at least one (a zero or absent configuration value falls back to 5). -/
theorem reachable_retry_inv {α : Type} {s : CMState α} (h : Reachable s) :
    (s.isRedisConnected = true → s.retryCount = 0) ∧ 1 ≤ s.maxRetries := by
  induction h with
  | init enabled cfgTtl cfgRedisTtl cfgMax =>
    constructor
    · intro hc
      simp [CacheManager.initState] at hc
    · simp only [CacheManager.initState]
      split <;> omega
  | next hr e ih =>
    obtain ⟨h1, h2⟩ := ih
    cases e <;>
      simp only [step, CacheManager.get, CacheManager.set, CacheManager.del,
        CacheManager.localGet, CacheManager.localSet, CacheManager.connectRedis,
        CacheManager.onConnect, CacheManager.onConnectError, CacheManager.onEnd,
        CacheManager.resetRetryCount, CacheManager.handleRedisError,
        CacheManager.scheduleReconnect] <;>
      (repeat' split) <;>
      exact ⟨fun hc => by simp_all, by simp_all⟩

theorem localGet_flags {α : Type} (s : CMState α) (now : Int) (key : String) :
    (CacheManager.localGet s now key).2.isRedisConnected = s.isRedisConnected ∧
    (CacheManager.localGet s now key).2.retryTimer = s.retryTimer := by
  unfold CacheManager.localGet
  repeat' split
  all_goals simp

/-- C4 (confirmed): whenever the external cache adapter is not connected,
every facade get, set and del reads and writes the local map tier only —
the outcome is independent of the external cache, a get is exactly the
local map lookup, and no Redis command is issued.  And in any reachable
state in which an operation does reach Redis, a thrown Redis error leaves
the adapter disconnected with a reconnect scheduled (retry timer armed),
while the triggering call falls back to the local map tier and returns
normally instead of propagating the failure. -/
theorem C4_fallback_and_absorb {α : Type} (s : CMState α) (now : Int)
    (key : String) (value : α) (ttl : Option Int) (hr : Reachable s) :
    (s.isRedisConnected = false →
      (∀ r1 r2 : RedisGetOutcome α,
         CacheManager.get s now key r1 = CacheManager.get s now key r2) ∧
      (s.enabled = true → ∀ r1 : RedisGetOutcome α,
         CacheManager.get s now key r1 = CacheManager.localGet s now key) ∧
      (∀ ok1 ok2 : Bool,
         CacheManager.set s now key value ttl ok1
           = CacheManager.set s now key value ttl ok2) ∧
      (∀ ok : Bool, (CacheManager.set s now key value ttl ok).2 = none) ∧
      (∀ o1 o2 : Option Nat,
         CacheManager.del s key o1 = CacheManager.del s key o2)) ∧
    (CacheManager.redisAvailable s = true → s.enabled = true →
      ((CacheManager.get s now key .err).2.isRedisConnected = false ∧
       (CacheManager.get s now key .err).2.retryTimer = true ∧
       (CacheManager.get s now key .err).1
         = (CacheManager.localGet (CacheManager.handleRedisError s) now key).1) ∧
      (0 < jsOrInt ttl s.cfgTtl →
       ((CacheManager.set s now key value ttl false).1.isRedisConnected = false ∧
        (CacheManager.set s now key value ttl false).1.retryTimer = true ∧
        (CacheManager.set s now key value ttl false).2 = none ∧
        (CacheManager.set s now key value ttl false).1.mapCache
          = mset s.mapCache key value)) ∧
      ((CacheManager.del s key none).2.isRedisConnected = false ∧
       (CacheManager.del s key none).2.retryTimer = true ∧
       (CacheManager.del s key none).1 = (mget s.mapCache key).isSome ∧
       (CacheManager.del s key none).2.mapCache = mdel s.mapCache key)) := by
  constructor
  · intro hconn
    have havail : CacheManager.redisAvailable s = false := by
      simp [CacheManager.redisAvailable, hconn]
    refine ⟨?_, ?_, ?_, ?_, ?_⟩
    · intro r1 r2
      unfold CacheManager.get
      simp [havail]
    · intro he r1
      unfold CacheManager.get
      simp [havail, he]
    · intro ok1 ok2
      unfold CacheManager.set
      simp [havail]
    · intro ok
      unfold CacheManager.set
      simp [havail]
      repeat' split
      all_goals simp
    · intro o1 o2
      unfold CacheManager.del
      simp [havail]
  · intro havail he
    obtain ⟨h1, h2⟩ := reachable_retry_inv hr
    have havail' := havail
    simp only [CacheManager.redisAvailable, Bool.and_eq_true, Bool.not_eq_true'] at havail'
    obtain ⟨⟨hconn, hclient⟩, hrec⟩ := havail'
    have hcount : s.retryCount = 0 := h1 hconn
    have hcap : ¬ s.maxRetries ≤ s.retryCount := by omega
    have hhre : CacheManager.handleRedisError s
        = { s with
            isRedisConnected := false, hasClient := false,
            retryCount := s.retryCount + 1, retryTimer := true } := by
      unfold CacheManager.handleRedisError CacheManager.scheduleReconnect
      split
      · rename_i hcond
        exfalso
        simp [hrec] at hcond
        omega
      · rfl
    refine ⟨?_, ?_, ?_⟩
    · have hget : CacheManager.get s now key .err
          = CacheManager.localGet (CacheManager.handleRedisError s) now key := by
        unfold CacheManager.get
        simp [havail, he]
      rw [hget]
      obtain ⟨hf1, hf2⟩ := localGet_flags (CacheManager.handleRedisError s) now key
      refine ⟨?_, ?_, rfl⟩
      · rw [hf1, hhre]
      · rw [hf2, hhre]
    · intro httl
      have hset : CacheManager.set s now key value ttl false
          = (CacheManager.localSet (CacheManager.handleRedisError s) now key value
              (jsOrInt ttl s.cfgTtl), none) := by
        unfold CacheManager.set
        simp [havail, he]
        intro hc
        exact absurd hc (by omega)
      rw [hset, hhre]
      exact ⟨rfl, rfl, rfl, rfl⟩
    · have hdel : CacheManager.del s key none
        = ((mget s.mapCache key).isSome,
           { s with
             isRedisConnected := false, hasClient := false,
             retryCount := s.retryCount + 1, retryTimer := true,
             mapCache := mdel s.mapCache key,
             mapCacheTTL := mdel s.mapCacheTTL key }) := by
        unfold CacheManager.del
        simp [havail, he, hhre]
      rw [hdel]
      exact ⟨rfl, rfl, rfl, rfl⟩

/-- C4 witness: the fallback and absorption behaviour at concrete states —
the freshly initialized (disconnected) facade, and the connected state
reached by a connect call followed by a successful connect event. -/
theorem C4_fallback_and_absorb_witness :
    (CacheManager.get (CacheManager.initState Nat true 3600 none 5) 0 "k"
        RedisGetOutcome.err
      = CacheManager.get (CacheManager.initState Nat true 3600 none 5) 0 "k"
        (RedisGetOutcome.hit 7)) ∧
    (CacheManager.get (CacheManager.initState Nat true 3600 none 5) 0 "k"
        RedisGetOutcome.err
      = CacheManager.localGet (CacheManager.initState Nat true 3600 none 5) 0 "k") ∧
    ((CacheManager.set (CacheManager.initState Nat true 3600 none 5) 0 "k" 7
        none true).2 = none) ∧
    ((CacheManager.get (step (step (CacheManager.initState Nat true 3600 none 5)
        Ev.connectCall) Ev.connectOk) 0 "k" RedisGetOutcome.err).2.isRedisConnected
      = false) ∧
    ((CacheManager.get (step (step (CacheManager.initState Nat true 3600 none 5)
        Ev.connectCall) Ev.connectOk) 0 "k" RedisGetOutcome.err).2.retryTimer
      = true) ∧
    ((CacheManager.set (step (step (CacheManager.initState Nat true 3600 none 5)
        Ev.connectCall) Ev.connectOk) 0 "k" 7 none false).1.mapCache
      = mset (step (step (CacheManager.initState Nat true 3600 none 5)
          Ev.connectCall) Ev.connectOk).mapCache "k" 7) := by
  have hreach0 : Reachable (CacheManager.initState Nat true 3600 none 5) :=
    Reachable.init true 3600 none 5
  have hreach2 : Reachable (step (step (CacheManager.initState Nat true 3600 none 5)
      Ev.connectCall) Ev.connectOk) :=
    (hreach0.next Ev.connectCall).next Ev.connectOk
  have hA := (C4_fallback_and_absorb (CacheManager.initState Nat true 3600 none 5)
      0 "k" (7 : Nat) none hreach0).1 rfl
  have hB := (C4_fallback_and_absorb (step (step (CacheManager.initState Nat true
      3600 none 5) Ev.connectCall) Ev.connectOk) 0 "k" (7 : Nat) none hreach2).2
      rfl rfl
  exact ⟨hA.1 .err (.hit 7), hA.2.1 rfl .err, hA.2.2.2.1 true,
    hB.1.1, hB.1.2.1, (hB.2.1 (by decide)).2.2.2⟩

/-- One event step preserves the capped-and-dead configuration: retry
counter at or above the cap, adapter unhealthy, no attempt in flight and
no timer pending — for every event except the manual reset. -/
theorem step_preserves_capped {α : Type} (s : CMState α) (e : Ev α)
    (hres : e.isReset = false)
    (hcap : s.maxRetries ≤ s.retryCount) (hconn : s.isRedisConnected = false)
    (hatt : s.attemptInFlight = false) (htimer : s.retryTimer = false) :
    (step s e).isRedisConnected = false ∧ (step s e).retryTimer = false ∧
    (step s e).attemptInFlight = false ∧
    (step s e).maxRetries ≤ (step s e).retryCount := by
  cases e <;>
    simp only [step, Ev.isReset, CacheManager.get, CacheManager.set,
      CacheManager.del, CacheManager.localGet, CacheManager.localSet,
      CacheManager.connectRedis, CacheManager.onConnect,
      CacheManager.onConnectError, CacheManager.onEnd,
      CacheManager.resetRetryCount, CacheManager.handleRedisError,
      CacheManager.scheduleReconnect, CacheManager.redisAvailable] <;>
    (repeat' split) <;>
    simp_all [Ev.isReset]

/-- Fold form of the capped invariant over a reset-free event sequence. -/
theorem runEvents_capped {α : Type} :
    ∀ (evs : List (Ev α)) (s : CMState α),
      (∀ e ∈ evs, e.isReset = false) →
      s.maxRetries ≤ s.retryCount → s.isRedisConnected = false →
      s.attemptInFlight = false → s.retryTimer = false →
      ((evs.foldl step s).isRedisConnected = false ∧
       (evs.foldl step s).retryTimer = false ∧
       (evs.foldl step s).attemptInFlight = false ∧
       (evs.foldl step s).maxRetries ≤ (evs.foldl step s).retryCount) := by
  intro evs
  induction evs with
  | nil =>
    intro s _ hcap hconn hatt htimer
    exact ⟨hconn, htimer, hatt, hcap⟩
  | cons e rest ih =>
    intro s hall hcap hconn hatt htimer
    have he := hall e (List.mem_cons_self _ _)
    obtain ⟨c1, c2, c3, c4⟩ := step_preserves_capped s e he hcap hconn hatt htimer
    exact ih (step s e) (fun x hx => hall x (List.mem_cons_of_mem _ hx)) c4 c1 c3 c2

/-- C5 (confirmed): once the retry counter has reached the configured
maximum (the adapter unhealthy, no attempt in flight, no timer pending),
no sequence of events without the manual reset ever schedules another
reconnect or makes the adapter healthy again: the adapter stays
disconnected, the retry timer stays unarmed, no connect attempt starts,
and the counter stays at or above the cap.  And a successful reconnect
(a connect event of an in-flight attempt) resets the failure counter to
zero. -/
theorem C5_retry_cap {α : Type} (s : CMState α)
    (hcap : s.maxRetries ≤ s.retryCount) (hconn : s.isRedisConnected = false)
    (hatt : s.attemptInFlight = false) (htimer : s.retryTimer = false) :
    (∀ evs : List (Ev α), (∀ e ∈ evs, e.isReset = false) →
       ((evs.foldl step s).isRedisConnected = false ∧
        (evs.foldl step s).retryTimer = false ∧
        (evs.foldl step s).attemptInFlight = false ∧
        (evs.foldl step s).maxRetries ≤ (evs.foldl step s).retryCount)) ∧
    (∀ t : CMState α, t.attemptInFlight = true →
       (step t Ev.connectOk).retryCount = 0) := by
  constructor
  · intro evs hall
    exact runEvents_capped evs s hall hcap hconn hatt htimer
  · intro t hatt'
    simp [step, hatt', CacheManager.onConnect]

/-- C5 witness: a concrete capped state stays dead under a timer firing,
a connect call, a connect error, an end event and a facade get whose
Redis call errors; and the connect event of an in-flight attempt resets
the counter to zero. -/
theorem C5_retry_cap_witness :
    ((evC5.foldl step cappedState).isRedisConnected = false ∧
     (evC5.foldl step cappedState).retryTimer = false ∧
     (evC5.foldl step cappedState).attemptInFlight = false ∧
     (evC5.foldl step cappedState).maxRetries
       ≤ (evC5.foldl step cappedState).retryCount) ∧
    (step attemptState Ev.connectOk).retryCount = 0 := by
  have h := C5_retry_cap cappedState (by decide) rfl rfl rfl
  exact ⟨h.1 evC5 (by decide), h.2 attemptState rfl⟩

/-! Claim C7: random selection. -/

theorem pickIndex_lt (r : ℚ) (K : Nat) (hr0 : 0 ≤ r) (hr1 : r < 1)
    (hK : 0 < K) : pickIndex r K < K := by
  have hKQ : (0 : ℚ) < (K : ℚ) := by exact_mod_cast hK
  have hflo : 0 ≤ ⌊r * (K : ℚ)⌋ := Int.floor_nonneg.2 (by positivity)
  have hfhi : ⌊r * (K : ℚ)⌋ < (K : ℤ) := by
    rw [Int.floor_lt]
    push_cast
    calc r * (K : ℚ) < 1 * (K : ℚ) := mul_lt_mul_of_pos_right hr1 hKQ
    _ = (K : ℚ) := one_mul _
  unfold pickIndex
  omega

theorem pickIndex_eq_iff (r : ℚ) (K i : Nat) (hr0 : 0 ≤ r) (hK : 0 < K) :
    pickIndex r K = i ↔ ((i : ℚ) / K ≤ r ∧ r < ((i : ℚ) + 1) / K) := by
  have hKQ : (0 : ℚ) < (K : ℚ) := by exact_mod_cast hK
  have hflo : 0 ≤ ⌊r * (K : ℚ)⌋ := Int.floor_nonneg.2 (by positivity)
  unfold pickIndex
  constructor
  · intro h
    have hfe : ⌊r * (K : ℚ)⌋ = (i : ℤ) := by omega
    obtain ⟨hle, hlt⟩ := Int.floor_eq_iff.1 hfe
    constructor
    · rw [div_le_iff₀ hKQ]
      exact_mod_cast hle
    · rw [lt_div_iff₀ hKQ]
      push_cast at hlt
      linarith
  · intro hiv
    obtain ⟨hle, hlt⟩ := hiv
    rw [div_le_iff₀ hKQ] at hle
    rw [lt_div_iff₀ hKQ] at hlt
    have hfe : ⌊r * (K : ℚ)⌋ = (i : ℤ) := by
      rw [Int.floor_eq_iff]
      constructor
      · exact_mod_cast hle
      · push_cast
        linarith
    omega

theorem getRandomImage_zero_singleton (img : ImgRec) (d : String)
    (hd : d ≠ "")
    (hpred : (if d = "_root" then img.directory == "_root"
        else img.directory == d || jsStartsWith img.path (d ++ "/")) = true) :
    getRandomImage [img] (some d) 0 = some img := by
  have hp : pickIndex 0 1 = 0 := by simp [pickIndex]
  unfold getRandomImage
  simp [hd, hpred, hp, List.filter]

/-- C7 (amended): getRandomImage with a directory never returns a record
outside the requested directory subtree: for the synthetic root key only
root records are returned, and for a named key only records whose
directory field equals the key or whose path lies under key/ (the code's
deliberate prefix match — which is weaker than directory equality, see
the counterexample).  An empty candidate pool yields the absent result,
a nonempty pool always yields a record (no error), and the drawn index
is Math.floor(r * K): index i is drawn exactly for r in the interval
[i/K, (i+1)/K), and all those intervals have the same width 1/K, which
is the uniformity of the draw. -/
theorem C7_random_selection_amended :
    (∀ (details : List ImgRec) (d : String) (r : ℚ) (img : ImgRec),
       getRandomImage details (some d) r = some img → d ≠ "" →
       ((d = "_root" → img.directory = "_root") ∧
        (d ≠ "_root" →
          (img.directory = d ∨ jsStartsWith img.path (d ++ "/") = true)))) ∧
    (∀ (details : List ImgRec) (d : String) (r : ℚ),
       d ≠ "" →
       (details.filter fun img =>
           if d = "_root" then img.directory == "_root"
           else img.directory == d || jsStartsWith img.path (d ++ "/")) = [] →
       getRandomImage details (some d) r = none) ∧
    (∀ (details : List ImgRec) (d : String) (r : ℚ),
       0 ≤ r → r < 1 → d ≠ "" →
       (details.filter fun img =>
           if d = "_root" then img.directory == "_root"
           else img.directory == d || jsStartsWith img.path (d ++ "/")) ≠ [] →
       (getRandomImage details (some d) r).isSome = true) ∧
    (∀ (r : ℚ) (K i : Nat), 0 ≤ r → 0 < K →
       ((pickIndex r K = i) ↔ ((i : ℚ) / K ≤ r ∧ r < ((i : ℚ) + 1) / K)) ∧
       ((i : ℚ) + 1) / K - (i : ℚ) / K = 1 / K) := by
  refine ⟨?_, ?_, ?_, ?_⟩
  · intro details d r img hres hd
    unfold getRandomImage at hres
    by_cases hlen : details.length = 0
    · simp [hlen] at hres
    · simp only [hlen, if_false] at hres
      rw [if_neg hd] at hres
      by_cases hf : (details.filter fun img =>
          if d = "_root" then img.directory == "_root"
          else img.directory == d || jsStartsWith img.path (d ++ "/")).length = 0
      · rw [if_pos hf] at hres
        exact absurd hres (by simp)
      · rw [if_neg hf] at hres
        have hmem : img ∈ details.filter fun img =>
            if d = "_root" then img.directory == "_root"
            else img.directory == d || jsStartsWith img.path (d ++ "/") := by
          have h1 := List.getElem?_eq_some.1 hres
          obtain ⟨hlt, hget⟩ := h1
          exact hget ▸ List.getElem_mem hlt
        have hpred := (List.mem_filter.1 hmem).2
        constructor
        · intro hroot
          rw [if_pos hroot] at hpred
          simp only [beq_iff_eq] at hpred
          exact hpred
        · intro hroot
          rw [if_neg hroot] at hpred
          simp only [Bool.or_eq_true, beq_iff_eq] at hpred
          exact hpred
  · intro details d r hd hfil
    unfold getRandomImage
    by_cases hlen : details.length = 0
    · simp [hlen]
    · simp [hlen, hd, hfil]
  · intro details d r hr0 hr1 hd hne
    unfold getRandomImage
    have hlen : ¬ details.length = 0 := by
      intro h0
      rw [List.length_eq_zero.1 h0] at hne
      simp at hne
    rw [if_neg hlen]
    simp only []
    rw [if_neg hd]
    have hK : 0 < (details.filter fun img =>
        if d = "_root" then img.directory == "_root"
        else img.directory == d || jsStartsWith img.path (d ++ "/")).length :=
      List.length_pos.2 hne
    rw [if_neg (by omega : ¬ (details.filter fun img =>
        if d = "_root" then img.directory == "_root"
        else img.directory == d || jsStartsWith img.path (d ++ "/")).length = 0)]
    have hidx := pickIndex_lt r _ hr0 hr1 hK
    rw [List.getElem?_eq_getElem hidx]
    rfl
  · intro r K i hr0 hK
    refine ⟨pickIndex_eq_iff r K i hr0 hK, ?_⟩
    have hKQ : (K : ℚ) ≠ 0 := by
      have : (0 : ℚ) < (K : ℚ) := by exact_mod_cast hK
      exact ne_of_gt this
    field_simp

/-- C7 counterexample: a record whose path starts with a/ but whose
directory field is other is returned by getRandomImage for directory a
— the candidate filter's prefix clause admits records whose directory is
not the requested one. -/
theorem C7_counterexample :
    getRandomImage [recNested] (some "a") 0 = some recNested ∧
    recNested.directory ≠ "a" := by
  refine ⟨getRandomImage_zero_singleton recNested "a" (by decide) (by decide),
    by decide⟩

/-- C7 witness: the amended selection properties at concrete inputs. -/
theorem C7_random_selection_amended_witness :
    (recPets.directory = "pets" ∨ jsStartsWith recPets.path ("pets" ++ "/") = true) ∧
    getRandomImage [] (some "pets") 0 = none ∧
    (getRandomImage [recPets] (some "pets") 0).isSome = true ∧
    ((pickIndex 0 2 = 0) ↔ ((0 : ℚ) / 2 ≤ 0 ∧ (0 : ℚ) < ((0 : ℚ) + 1) / 2)) := by
  refine ⟨?_, ?_, ?_, ?_⟩
  · exact (C7_random_selection_amended.1 [recPets] "pets" 0 recPets
      (getRandomImage_zero_singleton recPets "pets" (by decide) (by decide))
      (by decide)).2 (by decide)
  · exact C7_random_selection_amended.2.1 [] "pets" 0 (by decide) rfl
  · exact C7_random_selection_amended.2.2.1 [recPets] "pets" 0 (by decide)
      (by decide) (by decide) (by decide)
  · exact (C7_random_selection_amended.2.2.2 0 2 0 (by decide) (by decide)).1

/-! Claim C8: the manifest refresh route. -/

/-- C8 (amended): the update route succeeds exactly when a nonempty token
is supplied whose whitespace-trimmed value equals the trimmed server
secret (the comparison is on trimmed strings, not exact equality — see
the counterexample — and an unset secret behaves as the empty string);
on any authorization failure it returns the 403 response with the
persisted document untouched; on an authorized request with a successful
build and write it persists the serialized manifest and returns the
total count of indexed images. -/
theorem C8_update_auth_amended (token secret : Option String)
    (buildResult : Except Unit Manifest) (writeOk : Bool)
    (persisted : Option String) :
    (∀ t : String, token = some t → t ≠ "" →
       (updateAuthorized token secret = true ↔
        jsTrim t = jsTrim (secret.getD ""))) ∧
    (token = none ∨ token = some "" → updateAuthorized token secret = false) ∧
    (updateAuthorized token secret = false →
       handleUpdate token secret buildResult writeOk persisted
         = (.forbidden, persisted)) ∧
    (∀ data : Manifest, updateAuthorized token secret = true → writeOk = true →
       buildResult = .ok data →
       handleUpdate token secret buildResult writeOk persisted
         = (.success (countImages data), some (serializeManifest data))) := by
  refine ⟨?_, ?_, ?_, ?_⟩
  · intro t ht hne
    subst ht
    simp [updateAuthorized, hne]
  · intro h
    rcases h with h | h <;> subst h <;> simp [updateAuthorized]
  · intro h
    simp [handleUpdate, h]
  · intro data hauth hw hb
    subst hb
    subst hw
    simp [handleUpdate, hauth]

/-- C8 witness: a wrong token is rejected with no side effect, and the
exact token succeeds, rewrites the persisted document and reports the
image count. -/
theorem C8_update_auth_amended_witness :
    handleUpdate (some "bad") (some "secret") (Except.ok mSample) true
        (some "old") = (.forbidden, some "old") ∧
    handleUpdate (some "secret") (some "secret") (Except.ok mSample) true
        (some "old")
      = (.success (countImages mSample), some (serializeManifest mSample)) :=
  ⟨(C8_update_auth_amended (some "bad") (some "secret") (Except.ok mSample)
      true (some "old")).2.2.1 (by decide),
   (C8_update_auth_amended (some "secret") (some "secret") (Except.ok mSample)
      true (some "old")).2.2.2 mSample (by decide) rfl rfl⟩

/-- C8 counterexample: the token secret followed by a space is not equal
to the secret, yet the route succeeds (and rewrites the document),
because the comparison trims both sides — an exact-match-only contract
is false. -/
theorem C8_counterexample :
    (handleUpdate (some "secret ") (some "secret") (Except.ok mSample) true
        none).1 = .success 2 ∧
    ("secret " : String) ≠ "secret" := by
  constructor
  · decide
  · decide

/-! Claim C9: determinism of the manifest build. -/

theorem mget_filterMap_order (S : List (String × ManifestGroup)) :
    ∀ (order : List String), order.Nodup → ∀ k : String,
      mget (order.filterMap fun n =>
          (mget S n).map fun fs => (n, fs.filter fun p => isImageFile p.1)) k
        = if k ∈ order then
            (mget S k).map (fun fs => fs.filter fun p => isImageFile p.1)
          else none := by
  intro order
  induction order with
  | nil =>
    intro _ k
    simp [mget]
  | cons n rest ih =>
    intro hnd k
    obtain ⟨hhead, htail⟩ := List.nodup_cons.1 hnd
    rw [List.filterMap_cons]
    by_cases hk : k = n
    · subst hk
      cases hS : mget S k with
      | none =>
        simp only [hS, Option.map_none']
        rw [ih htail k]
        simp [hhead, hS]
      | some fs =>
        simp only [hS, Option.map_some']
        simp [mget, hS]
    · cases hS : mget S n with
      | none =>
        simp only [hS, Option.map_none']
        rw [ih htail k]
        simp [List.mem_cons, hk]
      | some fs =>
        simp only [hS, Option.map_some']
        simp only [mget]
        rw [if_neg (fun he => hk he.symm)]
        rw [ih htail k]
        simp [List.mem_cons, hk]

/-- C9 (amended): the manifest build is deterministic as a document (a
map from directory key to group): for any two completion orders of the
subdirectory scans — any permutations of the subdirectory names — the
built manifests agree on every key.  Byte-identical persisted output is
however only guaranteed for equal completion orders: the top-level key
order follows the asynchronous readdir callback completion order, and
two runs over the unchanged tree may serialize the same map with
different key order (the counterexample). -/
theorem C9_build_deterministic_amended (entries : List FsEntry)
    (o1 o2 : List String) (h1 : o1.Perm (subdirNames entries))
    (h2 : o2.Perm (subdirNames entries))
    (hnd : (subdirNames entries).Nodup) (k : String) :
    mget (generateListJson entries o1) k = mget (generateListJson entries o2) k := by
  have hnd1 : o1.Nodup := h1.nodup_iff.2 hnd
  have hnd2 : o2.Nodup := h2.nodup_iff.2 hnd
  unfold generateListJson
  by_cases hk : "_root" = k
  · simp [mget, hk]
  · simp only [mget, hk, if_false]
    rw [mget_filterMap_order (subdirList entries) o1 hnd1 k,
        mget_filterMap_order (subdirList entries) o2 hnd2 k]
    by_cases hmem : k ∈ subdirNames entries
    · rw [if_pos (h1.mem_iff.2 hmem), if_pos (h2.mem_iff.2 hmem)]
    · rw [if_neg (fun hx => hmem (h1.mem_iff.1 hx)),
          if_neg (fun hx => hmem (h2.mem_iff.1 hx))]

/-- C9 witness: over the sample tree, the two completion orders of the
subdirectories produce manifests that agree on every relevant key. -/
theorem C9_build_deterministic_amended_witness :
    mget (generateListJson fsSample ["pets", "cats"]) "pets"
      = mget (generateListJson fsSample ["cats", "pets"]) "pets" ∧
    mget (generateListJson fsSample ["pets", "cats"]) "_root"
      = mget (generateListJson fsSample ["cats", "pets"]) "_root" :=
  ⟨C9_build_deterministic_amended fsSample ["pets", "cats"] ["cats", "pets"]
      (by decide) (by decide) (by decide) "pets",
   C9_build_deterministic_amended fsSample ["pets", "cats"] ["cats", "pets"]
      (by decide) (by decide) (by decide) "_root"⟩

/-- C9 counterexample: both subdirectory completion orders are
permutations of the sample tree's subdirectories — both can occur on an
unchanged filesystem — yet the persisted bytes differ (the top-level key
order differs), so byte-identical output across two runs is not
guaranteed. -/
theorem C9_counterexample :
    List.Perm ["pets", "cats"] (subdirNames fsSample) ∧
    List.Perm ["cats", "pets"] (subdirNames fsSample) ∧
    serializeManifest (generateListJson fsSample ["pets", "cats"])
      ≠ serializeManifest (generateListJson fsSample ["cats", "pets"]) := by
  refine ⟨by decide, by decide, by decide⟩

/-! Claim C10: rate limiting. -/

theorem mget_mset_ne {β : Type} (m : List (String × β)) {k k' : String}
    (v : β) (h : k ≠ k') : mget (mset m k v) k' = mget m k' := by
  induction m with
  | nil => simp [mset, mget, h]
  | cons hd tl ih =>
    by_cases he : hd.1 = k
    · simp [mset, he, mget, h]
    · simp only [mset, he, if_false, mget]
      by_cases he2 : hd.1 = k'
      · simp [he2]
      · simp [he2, ih]

theorem mem_mkeys_mset {β : Type} (m : List (String × β)) (k : String)
    (v : β) (x : String) :
    x ∈ mkeys (mset m k v) ↔ x ∈ mkeys m ∨ x = k := by
  induction m with
  | nil => simp [mset, mkeys]
  | cons hd tl ih =>
    by_cases he : hd.1 = k
    · subst he
      have hrw : mset (hd :: tl) hd.1 v = (hd.1, v) :: tl := by simp [mset]
      rw [hrw, mkeys_cons, mkeys_cons]
      simp only [List.mem_cons]
      tauto
    · have hrw : mset (hd :: tl) k v = hd :: mset tl k v := by simp [mset, he]
      rw [hrw, mkeys_cons, mkeys_cons]
      simp only [List.mem_cons, ih]
      tauto

theorem mkeys_mset_nodup {β : Type} {m : List (String × β)} (k : String)
    (v : β) (hnd : (mkeys m).Nodup) : (mkeys (mset m k v)).Nodup := by
  induction m with
  | nil => simp [mset, mkeys]
  | cons hd tl ih =>
    rw [mkeys_cons] at hnd
    obtain ⟨hhead, htail⟩ := List.nodup_cons.1 hnd
    by_cases he : hd.1 = k
    · have : mset (hd :: tl) k v = (hd.1, v) :: tl := by simp [mset, he]
      rw [this, mkeys_cons]
      exact List.nodup_cons.2 ⟨hhead, htail⟩
    · have : mset (hd :: tl) k v = hd :: mset tl k v := by simp [mset, he]
      rw [this, mkeys_cons]
      refine List.nodup_cons.2 ⟨?_, ih htail⟩
      intro hmem
      rcases (mem_mkeys_mset tl k v hd.1).1 hmem with h | h
      · exact hhead h
      · exact he h

theorem mget_cleanup (m : RateMap) (now : Int) (k : String)
    (hnd : (mkeys m).Nodup) :
    mget (cleanupRequestCounts m now) k
      = match mget m k with
        | none => none
        | some l =>
          if (l.filter fun t => now - WINDOW_SIZE < t).isEmpty then none
          else some (l.filter fun t => now - WINDOW_SIZE < t) := by
  induction m with
  | nil => simp [cleanupRequestCounts, mget]
  | cons hd tl ih =>
    rw [mkeys_cons] at hnd
    obtain ⟨hhead, htail⟩ := List.nodup_cons.1 hnd
    have ih' := ih htail
    simp only [cleanupRequestCounts] at ih' ⊢
    rw [List.filterMap_cons]
    by_cases hk : hd.1 = k
    · subst hk
      by_cases hemp : ((hd.2.filter fun t => now - WINDOW_SIZE < t).isEmpty) = true
      · simp only [hemp, if_true]
        rw [ih', mget_of_notMem hhead]
        simp [mget, hemp]
      · simp only [hemp, if_false, Bool.false_eq_true]
        simp [mget, hemp]
    · by_cases hemp : ((hd.2.filter fun t => now - WINDOW_SIZE < t).isEmpty) = true
      · simp only [hemp, if_true]
        rw [ih']
        simp [mget, hk]
      · simp only [hemp, if_false, Bool.false_eq_true]
        simp only [mget, hk, if_false]
        exact ih'

theorem filter_window_mono (l : List Int) (now now' : Int) (h : now ≤ now') :
    ((l.filter fun t => now - WINDOW_SIZE < t).filter
        fun t => now' - WINDOW_SIZE < t)
      = l.filter fun t => now' - WINDOW_SIZE < t := by
  rw [List.filter_filter]
  apply List.filter_congr
  intro a _
  by_cases hc : now' - WINDOW_SIZE < a
  · have hc2 : now - WINDOW_SIZE < a := by omega
    simp [hc, hc2]
  · simp [hc]

theorem checkRateLimit_fst (rc : RateMap) (ip : String) (now : Int) :
    (checkRateLimit rc ip now).1
      = !(decide (REQUEST_LIMIT ≤ (((mget rc ip).getD []).filter
          fun t => now - WINDOW_SIZE < t).length)) := by
  unfold checkRateLimit
  by_cases h : REQUEST_LIMIT ≤ (((mget rc ip).getD []).filter
      fun t => now - WINDOW_SIZE < t).length
  · simp [h]
  · simp [h]

theorem runRequests_accepts (T : Int) (ip : String) :
    ∀ (times acc : List Int),
      (∀ t ∈ times, T - WINDOW_SIZE < t ∧ t ≤ T) →
      (∀ t ∈ acc, T - WINDOW_SIZE < t) →
      acc.length + times.length ≤ REQUEST_LIMIT →
      runRequests [(ip, acc)] ip times
        = (List.replicate times.length true, [(ip, acc ++ times)]) := by
  intro times
  induction times with
  | nil =>
    intro acc _ _ _
    simp [runRequests]
  | cons t rest ih =>
    intro acc htimes hacc hlen
    have hwin := htimes t (List.mem_cons_self _ _)
    have hfilter : acc.filter (fun x => t - WINDOW_SIZE < x) = acc := by
      rw [List.filter_eq_self]
      intro a ha
      have h1 := hacc a ha
      simp only [decide_eq_true_eq]
      omega
    have h200 : REQUEST_LIMIT = 200 := rfl
    have hlt : ¬ REQUEST_LIMIT ≤ acc.length := by
      rw [h200] at hlen ⊢
      simp only [List.length_cons] at hlen
      omega
    have hstep : checkRateLimit [(ip, acc)] ip t = (true, [(ip, acc ++ [t])]) := by
      unfold checkRateLimit
      simp [mget, mset, hfilter, hlt, MAX_CLIENTS]
    have hrun : runRequests [(ip, acc)] ip (t :: rest)
        = ((checkRateLimit [(ip, acc)] ip t).1 ::
            (runRequests (checkRateLimit [(ip, acc)] ip t).2 ip rest).1,
           (runRequests (checkRateLimit [(ip, acc)] ip t).2 ip rest).2) := rfl
    rw [hrun, hstep]
    have hih := ih (acc ++ [t])
      (fun x hx => htimes x (List.mem_cons_of_mem _ hx))
      (by
        intro x hx
        rcases List.mem_append.1 hx with hx | hx
        · exact hacc x hx
        · have : x = t := by simpa using hx
          exact this ▸ hwin.1)
      (by
        simp only [List.length_append, List.length_singleton]
        simp only [List.length_cons] at hlen
        omega)
    rw [hih]
    simp [List.replicate_succ, List.append_assoc]

set_option maxRecDepth 10000 in
/-- C10 (confirmed): the per-client rate limiter admits at most 200
requests per sliding 1000 ms window: a request whose client already has
200 timestamps inside the window is rejected; 200 requests from one
client inside one window are all accepted and the next request in that
window is rejected; a rejected request makes the main handler return the
429 response immediately, with the cache facade untouched and no cache
or selection effect emitted; and a request by one client never changes
the accept decision of another client's next request. -/
theorem C10_rate_limit :
    (∀ (rc : RateMap) (ip : String) (now : Int),
       REQUEST_LIMIT ≤ (((mget rc ip).getD []).filter
           fun t => now - WINDOW_SIZE < t).length →
       (checkRateLimit rc ip now).1 = false) ∧
    (∀ (times : List Int) (T : Int) (ip : String),
       times.length = REQUEST_LIMIT →
       (∀ t ∈ times, T - WINDOW_SIZE < t ∧ t ≤ T) →
       (runRequests [] ip times).1 = List.replicate REQUEST_LIMIT true ∧
       (checkRateLimit (runRequests [] ip times).2 ip T).1 = false) ∧
    (∀ (rate : RateMap) (cm : CMState CacheRec) (imageDetails : List ImgRec)
       (parts : List String) (reqPath : String) (json : Bool)
       (clientIP : String) (now : Int) (nowStr : String) (r : ℚ)
       (fsExists : String → Bool) (rGet : RedisGetOutcome CacheRec)
       (rSet : Bool) (rDel : Option Nat),
       (checkRateLimit rate clientIP now).1 = false →
       handleApiRequest rate cm imageDetails parts reqPath json clientIP now
           nowStr r fsExists rGet rSet rDel
         = (.tooMany, (checkRateLimit rate clientIP now).2, cm, [])) ∧
    (∀ (rc : RateMap) (ip1 ip2 : String) (now now' : Int),
       (mkeys rc).Nodup → ip1 ≠ ip2 → now ≤ now' →
       (checkRateLimit (checkRateLimit rc ip1 now).2 ip2 now').1
         = (checkRateLimit rc ip2 now').1) := by
  refine ⟨?_, ?_, ?_, ?_⟩
  · intro rc ip now h
    unfold checkRateLimit
    simp [h]
  · intro times T ip hlen hwin
    have h200 : REQUEST_LIMIT = 200 := rfl
    obtain ⟨t, rest, rfl⟩ : ∃ t rest, times = t :: rest := by
      cases times with
      | nil => rw [h200] at hlen; simp at hlen
      | cons t rest => exact ⟨t, rest, rfl⟩
    have hstep0 : checkRateLimit [] ip t = (true, [(ip, [t])]) := by
      unfold checkRateLimit
      simp [mget, mset, REQUEST_LIMIT, MAX_CLIENTS]
    have hrun : runRequests [] ip (t :: rest)
        = ((checkRateLimit [] ip t).1 ::
            (runRequests (checkRateLimit [] ip t).2 ip rest).1,
           (runRequests (checkRateLimit [] ip t).2 ip rest).2) := rfl
    have hih := runRequests_accepts T ip rest [t]
      (fun x hx => hwin x (List.mem_cons_of_mem _ hx))
      (by
        intro x hx
        have : x = t := by simpa using hx
        exact this ▸ (hwin t (List.mem_cons_self _ _)).1)
      (by
        simp only [List.length_cons] at hlen
        simp only [List.length_singleton]
        omega)
    have hmg : mget [(ip, [t] ++ rest)] ip = some ([t] ++ rest) := by
      simp [mget]
    have hfull : (((mget [(ip, [t] ++ rest)] ip).getD []).filter
        fun x => T - WINDOW_SIZE < x) = [t] ++ rest := by
      rw [hmg, Option.getD_some, List.filter_eq_self]
      intro a ha
      have := hwin a (by simpa using ha)
      simp only [decide_eq_true_eq]
      omega
    have hflen : ([t] ++ rest).length = REQUEST_LIMIT := by
      simpa using hlen
    constructor
    · rw [hrun, hstep0]
      dsimp only
      rw [hih]
      dsimp only
      simp only [List.length_cons] at hlen
      have hr : rest.length = 199 := by rw [h200] at hlen; omega
      rw [hr, h200]
      decide
    · rw [hrun, hstep0]
      dsimp only
      rw [hih]
      dsimp only
      rw [checkRateLimit_fst, hfull, hflen]
      simp
  · intro rate cm imageDetails parts reqPath json clientIP now nowStr r
      fsExists rGet rSet rDel h
    unfold handleApiRequest
    simp [h]
  · intro rc ip1 ip2 now now' hnd hne hmono
    have hkey : (((mget (checkRateLimit rc ip1 now).2 ip2).getD []).filter
        fun t => now' - WINDOW_SIZE < t)
        = (((mget rc ip2).getD []).filter fun t => now' - WINDOW_SIZE < t) := by
      unfold checkRateLimit
      by_cases hlim : REQUEST_LIMIT ≤ (((mget rc ip1).getD []).filter
          fun t => now - WINDOW_SIZE < t).length
      · simp only [hlim, if_true]
        rw [mget_mset_ne _ _ hne]
      · simp only [hlim, if_false]
        by_cases hcl : MAX_CLIENTS < (mset rc ip1
            ((((mget rc ip1).getD []).filter fun t => now - WINDOW_SIZE < t)
              ++ [now])).length
        · simp only [hcl, if_true]
          rw [mget_cleanup _ now ip2 (mkeys_mset_nodup _ _ hnd)]
          rw [mget_mset_ne _ _ hne]
          cases hL : mget rc ip2 with
          | none => simp
          | some l =>
            by_cases hemp : ((l.filter fun t => now - WINDOW_SIZE < t).isEmpty) = true
            · simp only [hemp, if_true]
              have hnil : l.filter (fun t => now - WINDOW_SIZE < t) = [] :=
                List.isEmpty_iff.1 hemp
              have : l.filter (fun t => now' - WINDOW_SIZE < t) = [] := by
                rw [← filter_window_mono l now now' hmono, hnil]
                rfl
              simp [this]
            · simp only [hemp, if_false, Bool.false_eq_true, Option.getD_some]
              exact filter_window_mono l now now' hmono
        · simp only [hcl, if_false]
          rw [mget_mset_ne _ _ hne]
    rw [checkRateLimit_fst, checkRateLimit_fst, hkey]

set_option maxRecDepth 10000 in
/-- C10 witness: the four rate-limiting clauses at concrete inputs — a
client with 200 in-window timestamps is rejected; 200 concrete requests
are all accepted and the 201st rejected; the handler returns 429 with
the facade untouched; and one client's request leaves another client's
decision unchanged. -/
theorem C10_rate_limit_witness :
    (checkRateLimit [("1.2.3.4", List.replicate 200 (5 : Int))] "1.2.3.4" 10).1
      = false ∧
    ((runRequests [] "1.2.3.4" (List.replicate 200 (5 : Int))).1
       = List.replicate REQUEST_LIMIT true ∧
     (checkRateLimit (runRequests [] "1.2.3.4"
        (List.replicate 200 (5 : Int))).2 "1.2.3.4" 10).1 = false) ∧
    handleApiRequest [("1.2.3.4", List.replicate 200 (5 : Int))]
        (CacheManager.initState CacheRec true 3600 none 5) [] [] "/api" false
        "1.2.3.4" 10 "ts" 0 (fun _ => true) .miss true none
      = (.tooMany,
         (checkRateLimit [("1.2.3.4", List.replicate 200 (5 : Int))]
           "1.2.3.4" 10).2,
         CacheManager.initState CacheRec true 3600 none 5, []) ∧
    (checkRateLimit (checkRateLimit [("a", [1]), ("b", [2])] "a" 1).2 "b" 2).1
      = (checkRateLimit [("a", [1]), ("b", [2])] "b" 2).1 := by
  refine ⟨?_, ?_, ?_, ?_⟩
  · exact C10_rate_limit.1 [("1.2.3.4", List.replicate 200 (5 : Int))]
      "1.2.3.4" 10 (by decide)
  · exact C10_rate_limit.2.1 (List.replicate 200 (5 : Int)) 10 "1.2.3.4"
      (by decide) (by decide)
  · exact C10_rate_limit.2.2.1 _ _ [] [] "/api" false "1.2.3.4" 10 "ts" 0
      (fun _ => true) .miss true none (by decide)
  · exact C10_rate_limit.2.2.2 [("a", [1]), ("b", [2])] "a" "b" 1 2
      (by decide) (by decide) (by decide)

end ImgApi


